import Mathlib

/-!
Verification of the plex-dual-subtitles specification against the code.

The bulk-wizard worklist computations, the dual-subtitle filename parser and
the filename language identification are embedded from the frontend sources
(EpisodePreviewStep.tsx, SubtitleManager.tsx, data/languages.ts and the wizard
component).  The backend pipeline (codec, synchronizer, merge engine, job
orchestrator) is not part of the provided sources; those components are
modelled from the specification, as marked in their doc comments.
-/

namespace PlexDualSub

/-! ## Bulk worklist data model

Embedded from the shapes the frontend code reads off the subtitle-analysis
payload (the types/bulk declaration file is not among the provided sources;
the fields below are exactly those accessed by EpisodePreviewStep.tsx and the
bulk wizard).  An absent optional field is modelled as Option none; a JS
array-destructuring of the first two elements is modelled by a list match.
-/

/-- One external subtitle entry attached to an episode, as declared in the
repository type ExternalSubtitle (part_009): only dual_languages is read by
the worklist computation. -/
structure ExternalSubtitle where
  file_path : String := ""
  file_name : String := ""
  language_code : Option String := none
  fmt : String := ""
  is_dual_subtitle : Option Bool := none
  dual_languages : Option (List String) := none
deriving Repr, DecidableEq

/-- One entry of a language availability episode_details list. -/
structure EpisodeDetail where
  episode_id : String
  existing_dual_subtitles : Option (List ExternalSubtitle) := none
deriving Repr, DecidableEq

/-- Availability of one language across a show. -/
structure LanguageAvailability where
  episodes_available : Nat
  episode_details : List EpisodeDetail
deriving Repr, DecidableEq

/-- The subtitle analysis of a show: language_availability is a string-keyed
record, modelled as an association list. -/
structure SubtitleAnalysis where
  total_episodes : Nat
  language_availability : List (String × LanguageAvailability)
deriving Repr, DecidableEq

/-- Record field access analysis.language_availability[lang]. -/
def lookupAvail (a : SubtitleAnalysis) (lang : String) : Option LanguageAvailability :=
  (a.language_availability.find? (fun kv => kv.1 == lang)).map Prod.snd

/-- The existing-dual test on a single recorded dual file, from
EpisodePreviewStep.tsx lines 42-47: requires at least two recorded languages
and compares the first two against the selected pair in either order. -/
def dualMatches (primaryLanguage secondaryLanguage : String) (dualSub : ExternalSubtitle) : Bool :=
  match dualSub.dual_languages with
  | none => false
  | some ls =>
    if ls.length < 2 then false
    else
      match ls with
      | lang1 :: lang2 :: _ =>
        (lang1 == primaryLanguage && lang2 == secondaryLanguage) ||
        (lang1 == secondaryLanguage && lang2 == primaryLanguage)
      | _ => false

/-- The per-episode exclusion test: ep.existing_dual_subtitles?.some(...) . -/
def hasExistingDual (primaryLanguage secondaryLanguage : String) (ep : EpisodeDetail) : Bool :=
  match ep.existing_dual_subtitles with
  | none => false
  | some subs => subs.any (dualMatches primaryLanguage secondaryLanguage)

/-- The membership-in-both-languages test used to build episodesWithBoth. -/
def inBoth (sa : LanguageAvailability) (ep : EpisodeDetail) : Bool :=
  sa.episode_details.any (fun secEp => secEp.episode_id == ep.episode_id)

/-- The statistics record computed by EpisodePreviewStep.tsx lines 27-57.
Counts are kept as integers, as in the JS arithmetic. -/
structure BulkStats where
  ready : Int
  needsAttention : Int
  willSkip : Int
  alreadyExists : Int
deriving Repr, DecidableEq

/-- Embeds the stats useMemo of EpisodePreviewStep.tsx lines 27-57. -/
def stats (analysis : SubtitleAnalysis) (primaryLanguage secondaryLanguage : String) : BulkStats :=
  match lookupAvail analysis primaryLanguage, lookupAvail analysis secondaryLanguage with
  | some primaryAvail, some secondaryAvail =>
    let episodesWithBoth :=
      primaryAvail.episode_details.filter (inBoth secondaryAvail)
    let episodesWithExistingDual :=
      episodesWithBoth.filter (hasExistingDual primaryLanguage secondaryLanguage)
    let alreadyExists : Int := episodesWithExistingDual.length
    let ready : Int := (episodesWithBoth.length : Int) - alreadyExists
    let maxAvailable : Int :=
      max (primaryAvail.episodes_available : Int) (secondaryAvail.episodes_available : Int)
    let needsAttention : Int := maxAvailable - (episodesWithBoth.length : Int)
    let willSkip : Int := (analysis.total_episodes : Int) - maxAvailable
    ⟨ready, needsAttention, willSkip, alreadyExists⟩
  | _, _ => ⟨0, 0, (analysis.total_episodes : Int), 0⟩

/-- Embeds the readyCount useMemo of the bulk wizard (part_001 lines 103-127):
identical filter chain, with the additional empty-selection guards. -/
def readyCount (analysis : Option SubtitleAnalysis)
    (primaryLanguage secondaryLanguage : String) : Int :=
  match analysis with
  | none => 0
  | some a =>
    if primaryLanguage == "" || secondaryLanguage == "" then 0
    else
      match lookupAvail a primaryLanguage, lookupAvail a secondaryLanguage with
      | some primaryAvail, some secondaryAvail =>
        let episodesWithBoth :=
          primaryAvail.episode_details.filter (inBoth secondaryAvail)
        let episodesWithExistingDual :=
          episodesWithBoth.filter (hasExistingDual primaryLanguage secondaryLanguage)
        (episodesWithBoth.length : Int) - (episodesWithExistingDual.length : Int)
      | _, _ => 0

/-- The READY count of the language-discovery step, previewData.compatible of
EpisodePreviewStep.tsx lines 304-311: the minimum of the two
episodes_available fields, defaulting to 0 for an absent language. -/
def previewCompatible (a : SubtitleAnalysis) (primaryLanguage secondaryLanguage : String) : Nat :=
  min
    (match lookupAvail a primaryLanguage with
      | some v => v.episodes_available
      | none => 0)
    (match lookupAvail a secondaryLanguage with
      | some v => v.episodes_available
      | none => 0)

/-- Number of episodes of the primary list that appear in both lists
(spec-side count for the worklist). -/
def bothCount (primaryAvail secondaryAvail : LanguageAvailability) : Nat :=
  primaryAvail.episode_details.countP (inBoth secondaryAvail)

/-- Number of episodes of the primary list that appear in both lists and
already carry a dual subtitle for the selected pair (spec-side count). -/
def bothWithDualCount (primaryAvail secondaryAvail : LanguageAvailability)
    (primaryLanguage secondaryLanguage : String) : Nat :=
  primaryAvail.episode_details.countP
    (fun ep => inBoth secondaryAvail ep && hasExistingDual primaryLanguage secondaryLanguage ep)

/-! ## Concrete analyses for witnesses and counterexamples -/

/-- A plain episode entry without any recorded dual subtitle. -/
def plainEp (i : Nat) : EpisodeDetail :=
  { episode_id := "e" ++ toString i }

/-- An episode entry carrying a dual subtitle recorded with the language pair
swapped, to exercise the order-insensitive match. -/
def dualEp (i : Nat) : EpisodeDetail :=
  { episode_id := "e" ++ toString i
    existing_dual_subtitles := some [{ dual_languages := some ["ja", "en"] }] }

/-- The availability of English in the 12-episode scenario: 11 episodes, two
of which already carry the en/ja dual file. -/
def enAvail : LanguageAvailability :=
  { episodes_available := 11
    episode_details := dualEp 1 :: dualEp 2 :: (List.range 9).map (fun i => plainEp (i + 3)) }

/-- The availability of Japanese in the 12-episode scenario: episodes 1-9. -/
def jaAvail : LanguageAvailability :=
  { episodes_available := 9
    episode_details := (List.range 9).map (fun i => plainEp (i + 1)) }

/-- The 12-episode scenario of the specification: 9 episodes have both
languages, 2 of those already contain the matching dual file. -/
def exampleAnalysis : SubtitleAnalysis :=
  { total_episodes := 12
    language_availability := [("en", enAvail), ("ja", jaAvail)] }

/-- An analysis where both languages are available on one episode each, but on
different episodes, so the two READY computations disagree. -/
def disjointAnalysis : SubtitleAnalysis :=
  { total_episodes := 2
    language_availability :=
      [("en", { episodes_available := 1, episode_details := [plainEp 1] }),
       ("ja", { episodes_available := 1, episode_details := [plainEp 2] })] }

/-! ## Theorems: bulk worklist claims -/

/-- Helper: the two filter stages of the worklist compose into one count. -/
lemma length_filter_both_dual (primaryAvail secondaryAvail : LanguageAvailability)
    (p s : String) :
    ((primaryAvail.episode_details.filter (inBoth secondaryAvail)).filter
        (hasExistingDual p s)).length
      = bothWithDualCount primaryAvail secondaryAvail p s := by
  rw [List.filter_filter, bothWithDualCount, List.countP_eq_length_filter]
  exact congrArg List.length
    (List.filter_congr (fun a _ => by rw [Bool.and_comm]))

/-- Claim C1: for every analysis and pair of distinct selected languages, the
ready count of the episode-configuration step equals the number of episodes
present in both languages episode lists minus the number of those that
already carry a dual subtitle for the pair; the wizard footer readyCount
computes the same value; and in the 12-episode scenario (9 episodes with both
languages, 2 of them already holding the dual file) the worklist size is 7. -/
theorem c1_ready_count :
    (∀ (a : SubtitleAnalysis) (p s : String) (pa sa : LanguageAvailability),
        lookupAvail a p = some pa → lookupAvail a s = some sa →
        p ≠ s → p ≠ "" → s ≠ "" →
        (stats a p s).ready = (bothCount pa sa : Int) - (bothWithDualCount pa sa p s : Int) ∧
        readyCount (some a) p s = (stats a p s).ready) ∧
    (stats exampleAnalysis "en" "ja").ready = 7 := by
  constructor
  · intro a p s pa sa hp hs _hne hpe hse
    have hpe2 : (p == "") = false := by simpa using hpe
    have hse2 : (s == "") = false := by simpa using hse
    constructor
    · simp only [stats, hp, hs, bothCount, List.countP_eq_length_filter,
        ← length_filter_both_dual pa sa p s]
    · simp only [stats, readyCount, hp, hs, hpe2, hse2, Bool.or_self, Bool.false_or,
        if_neg Bool.false_ne_true]
  · decide

/-- Witness for claim C1 at the 12-episode scenario analysis. -/
theorem c1_ready_count_witness :
    ((stats exampleAnalysis "en" "ja").ready
        = (bothCount enAvail jaAvail : Int) - (bothWithDualCount enAvail jaAvail "en" "ja" : Int) ∧
      readyCount (some exampleAnalysis) "en" "ja" = (stats exampleAnalysis "en" "ja").ready) ∧
    (stats exampleAnalysis "en" "ja").ready = 7 :=
  ⟨c1_ready_count.1 exampleAnalysis "en" "ja" enAvail jaAvail rfl rfl
      (by decide) (by decide) (by decide),
    c1_ready_count.2⟩

/-- Claim C2: the existing-dual exclusion test is symmetric in the two
selected languages, both on a single recorded dual file and on a whole
episode entry. -/
theorem c2_exclusion_symmetric :
    ∀ (p s : String),
      (∀ dualSub : ExternalSubtitle, dualMatches p s dualSub = dualMatches s p dualSub) ∧
      (∀ ep : EpisodeDetail, hasExistingDual p s ep = hasExistingDual s p ep) := by
  intro p s
  have hmatch : ∀ dualSub : ExternalSubtitle,
      dualMatches p s dualSub = dualMatches s p dualSub := by
    intro d
    cases h : d.dual_languages with
    | none => simp [dualMatches, h]
    | some ls =>
      match ls with
      | [] => simp [dualMatches, h]
      | [a] => simp [dualMatches, h]
      | a :: b :: t =>
        simp only [dualMatches, h, List.length_cons]
        rw [if_neg (by omega), if_neg (by omega)]
        exact Bool.or_comm _ _
  refine ⟨hmatch, ?_⟩
  intro ep
  cases h : ep.existing_dual_subtitles with
  | none => simp [hasExistingDual, h]
  | some subs =>
    simp only [hasExistingDual, h]
    exact congrArg subs.any (funext hmatch)

/-- Claim C10, counterexample: on an analysis where each language is available
on one episode but the episode sets are disjoint, the discovery-step READY
count (minimum of the availability counts) is 1 while the
episode-configuration ready count is 0, so the two computations disagree. -/
theorem c10_counterexample :
    (previewCompatible disjointAnalysis "en" "ja" : Int)
      ≠ (stats disjointAnalysis "en" "ja").ready := by
  decide

/-- Helper: with duplicate-free episode ids, the number of primary episodes
present in both lists is bounded by the length of the secondary list. -/
lemma length_filter_inBoth_le (pa sa : LanguageAvailability)
    (hnd : (pa.episode_details.map EpisodeDetail.episode_id).Nodup) :
    (pa.episode_details.filter (inBoth sa)).length ≤ sa.episode_details.length := by
  classical
  set l := (pa.episode_details.filter (inBoth sa)).map EpisodeDetail.episode_id with hl
  have hsub1 : l.Sublist (pa.episode_details.map EpisodeDetail.episode_id) :=
    (List.filter_sublist pa.episode_details).map EpisodeDetail.episode_id
  have hnd2 : l.Nodup := hnd.sublist hsub1
  have hincl : ∀ x ∈ l, x ∈ sa.episode_details.map EpisodeDetail.episode_id := by
    intro x hx
    rcases List.mem_map.mp hx with ⟨ep, hep, hid⟩
    have hboth : inBoth sa ep = true := List.of_mem_filter hep
    rcases List.any_eq_true.mp hboth with ⟨secEp, hsec, hbeq⟩
    have : secEp.episode_id = ep.episode_id := by simpa using hbeq
    exact List.mem_map.mpr ⟨secEp, hsec, by rw [this, hid]⟩
  have hcard : l.length ≤ (sa.episode_details.map EpisodeDetail.episode_id).length := by
    calc l.length = l.toFinset.card := (List.toFinset_card_of_nodup hnd2).symm
      _ ≤ (sa.episode_details.map EpisodeDetail.episode_id).toFinset.card := by
          refine Finset.card_le_card ?_
          intro x hx
          exact List.mem_toFinset.mpr (hincl x (List.mem_toFinset.mp hx))
      _ ≤ (sa.episode_details.map EpisodeDetail.episode_id).length :=
          List.toFinset_card_le _
  have hlen : l.length = (pa.episode_details.filter (inBoth sa)).length := by
    rw [hl, List.length_map]
  rw [hlen] at hcard
  simpa using hcard

/-- Claim C10 amended: the discovery-step READY count is an upper bound on
(not in general equal to) the episode-configuration ready count, provided the
analysis is internally consistent: each episodes_available field equals the
length of its episode_details list, and the primary episode ids carry no
duplicates. -/
theorem c10_ready_upper_bound :
    ∀ (a : SubtitleAnalysis) (p s : String) (pa sa : LanguageAvailability),
      lookupAvail a p = some pa → lookupAvail a s = some sa →
      pa.episodes_available = pa.episode_details.length →
      sa.episodes_available = sa.episode_details.length →
      (pa.episode_details.map EpisodeDetail.episode_id).Nodup →
      (stats a p s).ready ≤ (previewCompatible a p s : Int) := by
  intro a p s pa sa hp hs hpa hsa hnd
  simp only [stats, previewCompatible, hp, hs]
  have h1 : ((pa.episode_details.filter (inBoth sa)).length : Int)
      ≤ (pa.episodes_available : Int) := by
    rw [hpa]
    exact_mod_cast List.length_filter_le (inBoth sa) pa.episode_details
  have h2 : ((pa.episode_details.filter (inBoth sa)).length : Int)
      ≤ (sa.episodes_available : Int) := by
    rw [hsa]
    exact_mod_cast length_filter_inBoth_le pa sa hnd
  have h3 : (0 : Int) ≤ (((pa.episode_details.filter (inBoth sa)).filter
      (hasExistingDual p s)).length : Int) := Int.ofNat_nonneg _
  rw [Nat.cast_min]
  omega

/-- Witness for the amended claim C10 at the consistent 12-episode analysis. -/
theorem c10_ready_upper_bound_witness :
    (stats exampleAnalysis "en" "ja").ready
      ≤ (previewCompatible exampleAnalysis "en" "ja" : Int) :=
  c10_ready_upper_bound exampleAnalysis "en" "ja" enAvail jaAvail rfl rfl
    (by decide) (by decide) (by decide)


/-! ## Language identification from filenames

Embedded from src/frontend/src/data/languages.ts.  JS toLowerCase is modelled
by mapping Char.toLower over the string, which agrees with it on the ASCII
codes, aliases and filename segments this function compares.
-/

/-- Repository type LanguageInfo (languages.ts lines 2-9); the optional
commonCodes array is modelled with an empty default, which behaves like an
absent field under the optional-chaining some() call. -/
structure LanguageInfo where
  code : String
  name : String
  nativeName : String
  region : Option String := none
  script : Option String := none
  commonCodes : List String := []
deriving Repr, DecidableEq

/-- Lowercasing as used by languages.ts (ASCII case folding), computed on the
character list of the string. -/
def toLower (s : String) : String := String.mk (s.data.map Char.toLower)

/-- JS String.prototype.split with a one-character separator: the list of
(possibly empty) segments between separator occurrences. -/
def splitOnChar (sep : Char) : List Char -> List (List Char)
  | [] => [[]]
  | c :: rest =>
    if c = sep then [] :: splitOnChar sep rest
    else
      match splitOnChar sep rest with
      | seg :: segs => (c :: seg) :: segs
      | [] => [[c]]

/-- The dot-separated segments of a filename, as strings. -/
def splitParts (s : String) : List String :=
  (splitOnChar '.' s.data).map String.mk

/-- JS String.prototype.trim, on the character list (whitespace at both
ends removed). -/
def trimStr (s : String) : String :=
  String.mk (((s.data.dropWhile Char.isWhitespace).reverse.dropWhile Char.isWhitespace).reverse)

/-- Section of the COMPREHENSIVE_LANGUAGES table (languages.ts). -/
def majorWorldLanguages : List LanguageInfo := [
  { code := "en", name := "English", nativeName := "English", commonCodes := ["en", "eng", "english"] },
  { code := "zh", name := "Chinese (Simplified)", nativeName := "中文 (简体)", commonCodes := ["zh", "zh-cn", "zh-hans", "zhs", "chi", "chinese", "chs"] },
  { code := "zh-TW", name := "Chinese (Traditional)", nativeName := "中文 (繁體)", commonCodes := ["zh-tw", "zh-hk", "zh-hant", "zht", "cht", "tc", "traditional"] },
  { code := "hi", name := "Hindi", nativeName := "हिन्दी", commonCodes := ["hi", "hin", "hindi"] },
  { code := "es", name := "Spanish", nativeName := "Español", commonCodes := ["es", "spa", "spanish", "espanol"] },
  { code := "fr", name := "French", nativeName := "Français", commonCodes := ["fr", "fre", "fra", "french", "francais"] },
  { code := "ar", name := "Arabic", nativeName := "العربية", commonCodes := ["ar", "ara", "arabic"] },
  { code := "bn", name := "Bengali", nativeName := "বাংলা", commonCodes := ["bn", "ben", "bengali"] },
  { code := "pt", name := "Portuguese", nativeName := "Português", commonCodes := ["pt", "por", "portuguese"] },
  { code := "ru", name := "Russian", nativeName := "Русский", commonCodes := ["ru", "rus", "russian"] },
  { code := "ja", name := "Japanese", nativeName := "日本語", commonCodes := ["ja", "jp", "jpn", "japanese"] },
  { code := "de", name := "German", nativeName := "Deutsch", commonCodes := ["de", "ger", "deu", "german", "deutsch"] },
  { code := "ko", name := "Korean", nativeName := "한국어", commonCodes := ["ko", "kr", "kor", "korean"] },
  { code := "it", name := "Italian", nativeName := "Italiano", commonCodes := ["it", "ita", "italian"] },
  { code := "tr", name := "Turkish", nativeName := "Türkçe", commonCodes := ["tr", "tur", "turkish"] },
  { code := "vi", name := "Vietnamese", nativeName := "Tiếng Việt", commonCodes := ["vi", "vie", "vietnamese"] },
  { code := "pl", name := "Polish", nativeName := "Polski", commonCodes := ["pl", "pol", "polish"] },
  { code := "uk", name := "Ukrainian", nativeName := "Українська", commonCodes := ["uk", "ukr", "ukrainian"] },
  { code := "nl", name := "Dutch", nativeName := "Nederlands", commonCodes := ["nl", "dut", "nld", "dutch"] },
  { code := "fa", name := "Persian", nativeName := "فارسی", commonCodes := ["fa", "per", "fas", "persian", "farsi"] }
]

/-- Section of the COMPREHENSIVE_LANGUAGES table (languages.ts). -/
def europeanLanguages : List LanguageInfo := [
  { code := "sv", name := "Swedish", nativeName := "Svenska" },
  { code := "no", name := "Norwegian", nativeName := "Norsk" },
  { code := "da", name := "Danish", nativeName := "Dansk" },
  { code := "fi", name := "Finnish", nativeName := "Suomi" },
  { code := "is", name := "Icelandic", nativeName := "Íslenska" },
  { code := "cs", name := "Czech", nativeName := "Čeština" },
  { code := "sk", name := "Slovak", nativeName := "Slovenčina" },
  { code := "hu", name := "Hungarian", nativeName := "Magyar" },
  { code := "ro", name := "Romanian", nativeName := "Română" },
  { code := "bg", name := "Bulgarian", nativeName := "Български" },
  { code := "hr", name := "Croatian", nativeName := "Hrvatski" },
  { code := "sr", name := "Serbian", nativeName := "Српски" },
  { code := "bs", name := "Bosnian", nativeName := "Bosanski" },
  { code := "sl", name := "Slovenian", nativeName := "Slovenščina" },
  { code := "mk", name := "Macedonian", nativeName := "Македонски" },
  { code := "sq", name := "Albanian", nativeName := "Shqip" },
  { code := "et", name := "Estonian", nativeName := "Eesti" },
  { code := "lv", name := "Latvian", nativeName := "Latviešu" },
  { code := "lt", name := "Lithuanian", nativeName := "Lietuvių" },
  { code := "mt", name := "Maltese", nativeName := "Malti" },
  { code := "ga", name := "Irish", nativeName := "Gaeilge" },
  { code := "cy", name := "Welsh", nativeName := "Cymraeg" },
  { code := "eu", name := "Basque", nativeName := "Euskera" },
  { code := "ca", name := "Catalan", nativeName := "Català" },
  { code := "gl", name := "Galician", nativeName := "Galego" }
]

/-- Section of the COMPREHENSIVE_LANGUAGES table (languages.ts). -/
def asianLanguages : List LanguageInfo := [
  { code := "th", name := "Thai", nativeName := "ไทย" },
  { code := "my", name := "Burmese", nativeName := "မြန်မာ" },
  { code := "km", name := "Khmer", nativeName := "ភាសាខ្មែរ" },
  { code := "lo", name := "Lao", nativeName := "ພາສາລາວ" },
  { code := "si", name := "Sinhala", nativeName := "සිංහල" },
  { code := "ta", name := "Tamil", nativeName := "தமிழ்" },
  { code := "te", name := "Telugu", nativeName := "తెలుగు" },
  { code := "kn", name := "Kannada", nativeName := "ಕನ್ನಡ" },
  { code := "ml", name := "Malayalam", nativeName := "മലയാളം" },
  { code := "gu", name := "Gujarati", nativeName := "ગુજરાતી" },
  { code := "pa", name := "Punjabi", nativeName := "ਪੰਜਾਬੀ" },
  { code := "mr", name := "Marathi", nativeName := "मराठी" },
  { code := "ne", name := "Nepali", nativeName := "नेपाली" },
  { code := "ur", name := "Urdu", nativeName := "اردو" },
  { code := "sd", name := "Sindhi", nativeName := "سنڌي" },
  { code := "ps", name := "Pashto", nativeName := "پښتو" },
  { code := "dv", name := "Maldivian", nativeName := "ދިވެހި" }
]

/-- Section of the COMPREHENSIVE_LANGUAGES table (languages.ts). -/
def middleEasternLanguages : List LanguageInfo := [
  { code := "he", name := "Hebrew", nativeName := "עברית" },
  { code := "ku", name := "Kurdish", nativeName := "Kurdî" },
  { code := "az", name := "Azerbaijani", nativeName := "Azərbaycan" },
  { code := "ka", name := "Georgian", nativeName := "ქართული" },
  { code := "hy", name := "Armenian", nativeName := "Հայերեն" }
]

/-- Section of the COMPREHENSIVE_LANGUAGES table (languages.ts). -/
def africanLanguages : List LanguageInfo := [
  { code := "sw", name := "Swahili", nativeName := "Kiswahili" },
  { code := "am", name := "Amharic", nativeName := "አማርኛ" },
  { code := "ti", name := "Tigrinya", nativeName := "ትግርኛ" },
  { code := "om", name := "Oromo", nativeName := "Oromoo" },
  { code := "so", name := "Somali", nativeName := "Soomaali" },
  { code := "ha", name := "Hausa", nativeName := "Hausa" },
  { code := "yo", name := "Yoruba", nativeName := "Yorùbá" },
  { code := "ig", name := "Igbo", nativeName := "Igbo" },
  { code := "zu", name := "Zulu", nativeName := "IsiZulu" },
  { code := "xh", name := "Xhosa", nativeName := "IsiXhosa" },
  { code := "af", name := "Afrikaans", nativeName := "Afrikaans" }
]

/-- Section of the COMPREHENSIVE_LANGUAGES table (languages.ts). -/
def latinAmericanSpanishVariants : List LanguageInfo := [
  { code := "es-MX", name := "Spanish (Mexico)", nativeName := "Español (México)" },
  { code := "es-AR", name := "Spanish (Argentina)", nativeName := "Español (Argentina)" },
  { code := "es-CO", name := "Spanish (Colombia)", nativeName := "Español (Colombia)" },
  { code := "es-CL", name := "Spanish (Chile)", nativeName := "Español (Chile)" },
  { code := "es-PE", name := "Spanish (Peru)", nativeName := "Español (Perú)" },
  { code := "es-VE", name := "Spanish (Venezuela)", nativeName := "Español (Venezuela)" }
]

/-- Section of the COMPREHENSIVE_LANGUAGES table (languages.ts). -/
def portugueseVariants : List LanguageInfo := [
  { code := "pt-BR", name := "Portuguese (Brazil)", nativeName := "Português (Brasil)" },
  { code := "pt-PT", name := "Portuguese (Portugal)", nativeName := "Português (Portugal)" }
]

/-- Section of the COMPREHENSIVE_LANGUAGES table (languages.ts). -/
def englishVariants : List LanguageInfo := [
  { code := "en-US", name := "English (US)", nativeName := "English (US)" },
  { code := "en-GB", name := "English (UK)", nativeName := "English (UK)" },
  { code := "en-AU", name := "English (Australia)", nativeName := "English (Australia)" },
  { code := "en-CA", name := "English (Canada)", nativeName := "English (Canada)" }
]

/-- Section of the COMPREHENSIVE_LANGUAGES table (languages.ts). -/
def frenchVariants : List LanguageInfo := [
  { code := "fr-FR", name := "French (France)", nativeName := "Français (France)" },
  { code := "fr-CA", name := "French (Canada)", nativeName := "Français (Canada)" },
  { code := "fr-CH", name := "French (Switzerland)", nativeName := "Français (Suisse)" },
  { code := "fr-BE", name := "French (Belgium)", nativeName := "Français (Belgique)" }
]

/-- Section of the COMPREHENSIVE_LANGUAGES table (languages.ts). -/
def germanVariants : List LanguageInfo := [
  { code := "de-DE", name := "German (Germany)", nativeName := "Deutsch (Deutschland)" },
  { code := "de-AT", name := "German (Austria)", nativeName := "Deutsch (Österreich)" },
  { code := "de-CH", name := "German (Switzerland)", nativeName := "Deutsch (Schweiz)" }
]

/-- Section of the COMPREHENSIVE_LANGUAGES table (languages.ts). -/
def otherRegionalVariants : List LanguageInfo := [
  { code := "ar-SA", name := "Arabic (Saudi Arabia)", nativeName := "العربية (السعودية)" },
  { code := "ar-EG", name := "Arabic (Egypt)", nativeName := "العربية (مصر)" },
  { code := "ar-AE", name := "Arabic (UAE)", nativeName := "العربية (الإمارات)" },
  { code := "ar-MA", name := "Arabic (Morocco)", nativeName := "العربية (المغرب)" }
]

/-- Section of the COMPREHENSIVE_LANGUAGES table (languages.ts). -/
def lessCommonLanguages : List LanguageInfo := [
  { code := "id", name := "Indonesian", nativeName := "Bahasa Indonesia" },
  { code := "ms", name := "Malay", nativeName := "Bahasa Melayu" },
  { code := "tl", name := "Filipino", nativeName := "Filipino" },
  { code := "ceb", name := "Cebuano", nativeName := "Cebuano" },
  { code := "haw", name := "Hawaiian", nativeName := "ʻŌlelo Hawaiʻi" },
  { code := "mi", name := "Māori", nativeName := "Te Reo Māori" },
  { code := "sm", name := "Samoan", nativeName := "Gagana Sāmoa" },
  { code := "to", name := "Tongan", nativeName := "Lea Fakatonga" },
  { code := "fj", name := "Fijian", nativeName := "Na Vosa Vakaviti" }
]

/-- Section of the COMPREHENSIVE_LANGUAGES table (languages.ts). -/
def constructedLanguages : List LanguageInfo := [
  { code := "eo", name := "Esperanto", nativeName := "Esperanto" },
  { code := "ia", name := "Interlingua", nativeName := "Interlingua" },
  { code := "vo", name := "Volapük", nativeName := "Volapük" }
]

/-- Section of the COMPREHENSIVE_LANGUAGES table (languages.ts). -/
def signLanguages : List LanguageInfo := [
  { code := "asl", name := "American Sign Language", nativeName := "ASL" },
  { code := "bsl", name := "British Sign Language", nativeName := "BSL" },
  { code := "jsl", name := "Japanese Sign Language", nativeName := "JSL" }
]

/-- Section of the COMPREHENSIVE_LANGUAGES table (languages.ts). -/
def specialTechnicalCodes : List LanguageInfo := [
  { code := "zxx", name := "No Linguistic Content", nativeName := "No Language" },
  { code := "mul", name := "Multiple Languages", nativeName := "Multiple" },
  { code := "und", name := "Undetermined", nativeName := "Unknown" }
]

/-- The COMPREHENSIVE_LANGUAGES table of languages.ts lines 19-168, in its
source order, assembled from its commented sections. -/
def COMPREHENSIVE_LANGUAGES : List LanguageInfo :=
  majorWorldLanguages ++ europeanLanguages ++ asianLanguages ++ middleEasternLanguages ++ africanLanguages ++ latinAmericanSpanishVariants ++ portugueseVariants ++ englishVariants ++ frenchVariants ++ germanVariants ++ otherRegionalVariants ++ lessCommonLanguages ++ constructedLanguages ++ signLanguages ++ specialTechnicalCodes

/-- Embeds getLanguageByCommonCode (languages.ts lines 195-201). -/
def getLanguageByCommonCode (code : String) : Option LanguageInfo :=
  let normalizedCode := trimStr (toLower code)
  COMPREHENSIVE_LANGUAGES.find? (fun lang =>
    toLower lang.code == normalizedCode ||
    lang.commonCodes.any (fun c => toLower c == normalizedCode))

/-- Matcher for the segment pattern s digits e digits (lowercased SnnEmm). -/
def matchSnnEmm (l : List Char) : Bool :=
  match l with
  | 's' :: rest =>
    let d1 := rest.span Char.isDigit
    match d1.2 with
    | 'e' :: rest2 =>
      let d2 := rest2.span Char.isDigit
      !d1.1.isEmpty && !d2.1.isEmpty && d2.2.isEmpty
    | _ => false
  | _ => false

/-- Matcher for the segment pattern digits x digits (NxM). -/
def matchNxM (l : List Char) : Bool :=
  let d1 := l.span Char.isDigit
  match d1.2 with
  | 'x' :: rest2 =>
    let d2 := rest2.span Char.isDigit
    !d1.1.isEmpty && !d2.1.isEmpty && d2.2.isEmpty
  | _ => false

/-- The skip test of languages.ts line 212: the anchored alternation of known
extensions and episode-number segment patterns. -/
def isSkippedPart (part : String) : Bool :=
  part == "srt" || part == "ass" || part == "vtt" || part == "sub" ||
  part == "idx" || part == "ssa" || part == "txt" ||
  matchSnnEmm part.toList || matchNxM part.toList

/-- The accumulator loop of extractLanguageFromFilename (languages.ts lines
210-220): skip known non-language segments, look the segment up, and push the
language unless its code was already found. -/
def extractGo : List String -> List LanguageInfo -> List LanguageInfo
  | [], foundLanguages => foundLanguages
  | part :: rest, foundLanguages =>
    if isSkippedPart part then extractGo rest foundLanguages
    else
      match getLanguageByCommonCode part with
      | some language =>
        if foundLanguages.any (fun l => l.code == language.code) then
          extractGo rest foundLanguages
        else
          extractGo rest (foundLanguages ++ [language])
      | none => extractGo rest foundLanguages

/-- Embeds extractLanguageFromFilename (languages.ts lines 204-223). -/
def extractLanguageFromFilename (filename : String) : List LanguageInfo :=
  extractGo (splitParts (toLower filename)) []

/-- Spec-side: the lookup predicate of getLanguageByCommonCode, as a match
test between one table entry and one filename segment. -/
def matchesPart (lang : LanguageInfo) (part : String) : Bool :=
  toLower lang.code == trimStr (toLower part) ||
  lang.commonCodes.any (fun c => toLower c == trimStr (toLower part))

/-- Spec-side: the non-skipped segments of a filename. -/
def nonSkippedParts (filename : String) : List String :=
  (splitParts (toLower filename)).filter (fun part => !isSkippedPart part)

/-- Spec-side: the matched language of each non-skipped segment, in segment
order, before removing duplicates. -/
def matchedList (filename : String) : List LanguageInfo :=
  (nonSkippedParts filename).filterMap getLanguageByCommonCode

/-- First-occurrence duplicate removal keyed by language code. -/
def dedupeNew (seen : List String) : List LanguageInfo -> List LanguageInfo
  | [] => []
  | lang :: rest =>
    if seen.contains lang.code then dedupeNew seen rest
    else lang :: dedupeNew (lang.code :: seen) rest

/-- Spec-side description of the extraction: the first-matching language of
each non-skipped segment, in segment order, first occurrence per code kept. -/
def specExtract (filename : String) : List LanguageInfo :=
  dedupeNew [] (matchedList filename)

/-! ## Uniqueness of the language key table -/

/-- The lookup keys of one table entry: its lowercased code and aliases. -/
def keysetOf (lang : LanguageInfo) : List String :=
  (toLower lang.code :: lang.commonCodes.map toLower).dedup

/-- Boolean duplicate-freedom check, kernel-evaluable on the table. -/
def allDistinct : List String -> Bool
  | [] => true
  | x :: xs => !(xs.contains x) && allDistinct xs

lemma allDistinct_append (a b : List String) (h : allDistinct (a ++ b) = true) :
    allDistinct a = true ∧ allDistinct b = true ∧ ∀ x ∈ a, x ∉ b := by
  induction a with
  | nil => exact ⟨rfl, by simpa using h, by simp⟩
  | cons x xs ih =>
    rw [List.cons_append, allDistinct, Bool.and_eq_true] at h
    obtain ⟨hx, hrest⟩ := h
    have hcont : (xs ++ b).contains x = false := by simpa using hx
    have hx2 : ¬(x ∈ xs ∨ x ∈ b) := by
      intro hmem
      have h1 : (xs ++ b).contains x = true :=
        List.elem_iff.mpr (List.mem_append.mpr hmem)
      rw [hcont] at h1
      exact Bool.false_ne_true h1
    rw [not_or] at hx2
    obtain ⟨ha, hb, hdisj⟩ := ih hrest
    refine ⟨?_, hb, ?_⟩
    · rw [allDistinct, Bool.and_eq_true]
      refine ⟨?_, ha⟩
      have hxs : xs.contains x = false := by
        cases hc : xs.contains x with
        | false => rfl
        | true => exact absurd (List.elem_iff.mp hc) hx2.1
      rw [hxs]
      rfl
    · intro y hy
      rcases List.mem_cons.mp hy with rfl | hy2
      · exact hx2.2
      · exact hdisj y hy2

lemma allDistinct_flatMap_inj {α : Type} (f : α -> List String) :
    ∀ (ts : List α), allDistinct (ts.flatMap f) = true →
      ∀ a ∈ ts, ∀ b ∈ ts, ∀ k, k ∈ f a → k ∈ f b → a = b := by
  intro ts
  induction ts with
  | nil => intro _ a ha; simp at ha
  | cons t rest ih =>
    intro h a ha b hb k hka hkb
    rw [List.flatMap_cons] at h
    obtain ⟨_, hrest, hdisj⟩ := allDistinct_append _ _ h
    rcases List.mem_cons.mp ha with rfl | ha2
    · rcases List.mem_cons.mp hb with rfl | hb2
      · rfl
      · exact absurd (List.mem_flatMap.mpr ⟨b, hb2, hkb⟩) (hdisj k hka)
    · rcases List.mem_cons.mp hb with rfl | hb2
      · exact absurd (List.mem_flatMap.mpr ⟨a, ha2, hka⟩) (hdisj k hkb)
      · exact ih hrest a ha2 b hb2 k hka hkb

lemma allDistinct_map_inj {α : Type} (f : α -> String) :
    ∀ (ts : List α), allDistinct (ts.map f) = true →
      ∀ a ∈ ts, ∀ b ∈ ts, f a = f b → a = b := by
  intro ts h a ha b hb hab
  have hmain := allDistinct_flatMap_inj (fun x => [f x]) ts
  rw [show ts.flatMap (fun x => [f x]) = ts.map f from (List.map_eq_flatMap f ts).symm] at hmain
  exact hmain h a ha b hb (f a) (by simp) (by simp [hab])

/-- The lookup keys of the 119 table entries are pairwise distinct (kernel
computation over the table). -/
lemma table_keys_distinct : allDistinct (COMPREHENSIVE_LANGUAGES.flatMap keysetOf) = true := by
  decide

/-- The codes of the 119 table entries are pairwise distinct. -/
lemma table_codes_distinct : allDistinct (COMPREHENSIVE_LANGUAGES.map LanguageInfo.code) = true := by
  decide

/-- Two table entries sharing a lookup key are the same entry. -/
lemma table_key_unique {a b : LanguageInfo} (ha : a ∈ COMPREHENSIVE_LANGUAGES)
    (hb : b ∈ COMPREHENSIVE_LANGUAGES) {k : String}
    (hka : k ∈ keysetOf a) (hkb : k ∈ keysetOf b) : a = b :=
  allDistinct_flatMap_inj keysetOf COMPREHENSIVE_LANGUAGES table_keys_distinct
    a ha b hb k hka hkb

/-- Two table entries sharing a code are the same entry. -/
lemma table_code_unique {a b : LanguageInfo} (ha : a ∈ COMPREHENSIVE_LANGUAGES)
    (hb : b ∈ COMPREHENSIVE_LANGUAGES) (hc : a.code = b.code) : a = b :=
  allDistinct_map_inj LanguageInfo.code COMPREHENSIVE_LANGUAGES table_codes_distinct
    a ha b hb hc

/-! ## Characterization of the extraction -/

lemma matchesPart_iff (lang : LanguageInfo) (part : String) :
    matchesPart lang part = true ↔ trimStr (toLower part) ∈ keysetOf lang := by
  simp only [matchesPart, keysetOf, List.mem_dedup, List.mem_cons, List.mem_map,
    Bool.or_eq_true, beq_iff_eq, List.any_eq_true]
  constructor
  · rintro (h | ⟨c, hc, hec⟩)
    · exact Or.inl h.symm
    · exact Or.inr ⟨c, hc, hec⟩
  · rintro (h | ⟨c, hc, hec⟩)
    · exact Or.inl h.symm
    · exact Or.inr ⟨c, hc, hec⟩

lemma getLanguageByCommonCode_eq_find (part : String) :
    getLanguageByCommonCode part
      = COMPREHENSIVE_LANGUAGES.find? (fun lang => matchesPart lang part) := rfl

lemma lookup_iff (part : String) (lang : LanguageInfo) :
    getLanguageByCommonCode part = some lang ↔
      lang ∈ COMPREHENSIVE_LANGUAGES ∧ matchesPart lang part = true := by
  rw [getLanguageByCommonCode_eq_find]
  constructor
  · intro h
    have hp := List.find?_some h
    exact ⟨List.mem_of_find?_eq_some h, by simpa using hp⟩
  · rintro ⟨hmem, hmatch⟩
    cases hfind : COMPREHENSIVE_LANGUAGES.find? (fun lang => matchesPart lang part) with
    | none =>
      exact absurd hmatch (by simpa using List.find?_eq_none.mp hfind lang hmem)
    | some lang2 =>
      have hp := List.find?_some hfind
      have h2 : matchesPart lang2 part = true := by simpa using hp
      have hmem2 : lang2 ∈ COMPREHENSIVE_LANGUAGES := List.mem_of_find?_eq_some hfind
      have : lang2 = lang :=
        table_key_unique hmem2 hmem ((matchesPart_iff lang2 part).mp h2)
          ((matchesPart_iff lang part).mp hmatch)
      rw [this]

/-- Every language a successful lookup returns is a table entry. -/
lemma mem_table_of_lookup {part : String} {lang : LanguageInfo}
    (h : getLanguageByCommonCode part = some lang) : lang ∈ COMPREHENSIVE_LANGUAGES :=
  ((lookup_iff part lang).mp h).1

lemma dedupeNew_congr (s1 s2 : List String)
    (hs : ∀ x, s1.contains x = s2.contains x) :
    ∀ l : List LanguageInfo, dedupeNew s1 l = dedupeNew s2 l := by
  intro l
  induction l generalizing s1 s2 with
  | nil => rfl
  | cons lang rest ih =>
    rw [dedupeNew, dedupeNew, hs lang.code]
    by_cases h2 : s2.contains lang.code = true
    · rw [if_pos h2, if_pos h2]
      exact ih s1 s2 hs
    · rw [if_neg h2, if_neg h2]
      congr 1
      refine ih _ _ ?_
      intro x
      simp only [List.contains_cons]
      rw [hs x]

/-- The accumulator loop computes the append of the accumulator with the
first-per-code deduplication of the remaining matched languages. -/
lemma extractGo_eq_dedupe :
    ∀ (parts : List String) (found : List LanguageInfo),
      extractGo parts found
        = found ++ dedupeNew (found.map LanguageInfo.code)
            ((parts.filter (fun part => !isSkippedPart part)).filterMap getLanguageByCommonCode) := by
  intro parts
  induction parts with
  | nil => intro found; simp [extractGo, dedupeNew]
  | cons part rest ih =>
    intro found
    rw [extractGo]
    cases hskip : isSkippedPart part with
    | true => simpa [hskip] using ih found
    | false =>
      simp only [hskip, List.filter_cons, Bool.not_false, if_true]
      cases hlook : getLanguageByCommonCode part with
      | none => simpa [hlook] using ih found
      | some language =>
        rw [if_neg Bool.false_ne_true]
        simp only [hlook, List.filterMap_cons, dedupeNew]
        have hcontains : (found.map LanguageInfo.code).contains language.code
            = found.any (fun l => l.code == language.code) := by
          cases hany : found.any (fun l => l.code == language.code) with
          | true =>
            rcases List.any_eq_true.mp hany with ⟨l, hl, heq⟩
            exact List.elem_iff.mpr
              (List.mem_map.mpr ⟨l, hl, (beq_iff_eq.mp heq)⟩)
          | false =>
            cases hc : (found.map LanguageInfo.code).contains language.code with
            | false => rfl
            | true =>
              rcases List.mem_map.mp (List.elem_iff.mp hc) with ⟨l, hl, heq⟩
              have hx : found.any (fun l => l.code == language.code) = true :=
                List.any_eq_true.mpr ⟨l, hl, beq_iff_eq.mpr heq⟩
              rw [hany] at hx
              exact absurd hx Bool.false_ne_true
        rw [hcontains]
        by_cases hany : found.any (fun l => l.code == language.code) = true
        · rw [if_pos hany, if_pos hany]
          exact ih found
        · rw [if_neg hany, if_neg hany]
          rw [ih (found ++ [language])]
          rw [List.append_assoc, List.singleton_append, List.map_append,
            List.map_cons, List.map_nil]
          congr 2
          refine dedupeNew_congr _ _ ?_ _
          intro x
          rw [Bool.eq_iff_iff]
          simp only [List.elem_iff, List.contains_cons, Bool.or_eq_true, beq_iff_eq,
            List.mem_append, List.mem_singleton]
          tauto

/-- The extraction equals its spec-side description. -/
lemma extract_eq_spec (filename : String) :
    extractLanguageFromFilename filename = specExtract filename := by
  rw [extractLanguageFromFilename, specExtract, matchedList, nonSkippedParts,
    extractGo_eq_dedupe]
  rfl

lemma dedupeNew_mem :
    ∀ (l : List LanguageInfo) (seen : List String),
      (∀ a ∈ l, a ∈ COMPREHENSIVE_LANGUAGES) →
      ∀ L, L ∈ dedupeNew seen l ↔ (L ∈ l ∧ seen.contains L.code = false) := by
  intro l
  induction l with
  | nil => intro seen _ L; simp [dedupeNew]
  | cons x rest ih =>
    intro seen htab L
    have htabx : x ∈ COMPREHENSIVE_LANGUAGES := htab x (List.mem_cons_self x rest)
    have htabrest : ∀ a ∈ rest, a ∈ COMPREHENSIVE_LANGUAGES :=
      fun a ha => htab a (List.mem_cons_of_mem x ha)
    rw [dedupeNew]
    by_cases h1 : seen.contains x.code = true
    · rw [if_pos h1, ih seen htabrest L]
      constructor
      · rintro ⟨hmem, hc⟩
        exact ⟨List.mem_cons_of_mem x hmem, hc⟩
      · rintro ⟨hmem, hc⟩
        rcases List.mem_cons.mp hmem with rfl | hmem2
        · rw [h1] at hc
          exact absurd hc (by simp)
        · exact ⟨hmem2, hc⟩
    · rw [if_neg h1]
      have h1f : seen.contains x.code = false := by
        cases hc : seen.contains x.code with
        | false => rfl
        | true => exact absurd hc h1
      constructor
      · intro hmem
        rcases List.mem_cons.mp hmem with rfl | hmem2
        · exact ⟨List.mem_cons_self L rest, h1f⟩
        · obtain ⟨hmem3, hc3⟩ := (ih (x.code :: seen) htabrest L).mp hmem2
          rw [List.contains_cons] at hc3
          refine ⟨List.mem_cons_of_mem x hmem3, ?_⟩
          cases hc : seen.contains L.code with
          | false => rfl
          | true => rw [hc] at hc3; simp at hc3
      · rintro ⟨hmem, hc⟩
        rcases List.mem_cons.mp hmem with rfl | hmem2
        · exact List.mem_cons_self L _
        · by_cases hcx : L.code = x.code
          · have : L = x := table_code_unique (htabrest L hmem2) htabx hcx
            rw [this]
            exact List.mem_cons_self x _
          · refine List.mem_cons_of_mem x ((ih (x.code :: seen) htabrest L).mpr ⟨hmem2, ?_⟩)
            rw [List.contains_cons, hc]
            simp [hcx]

lemma dedupeNew_codes_nodup :
    ∀ (l : List LanguageInfo) (seen : List String),
      ((dedupeNew seen l).map LanguageInfo.code).Nodup ∧
      ∀ c ∈ (dedupeNew seen l).map LanguageInfo.code, seen.contains c = false := by
  intro l
  induction l with
  | nil => intro seen; simp [dedupeNew]
  | cons x rest ih =>
    intro seen
    rw [dedupeNew]
    by_cases h1 : seen.contains x.code = true
    · rw [if_pos h1]
      exact ih seen
    · rw [if_neg h1]
      have h1f : seen.contains x.code = false := by
        cases hc : seen.contains x.code with
        | false => rfl
        | true => exact absurd hc h1
      obtain ⟨hnd, hseen⟩ := ih (x.code :: seen)
      rw [List.map_cons]
      refine ⟨List.nodup_cons.mpr ⟨?_, hnd⟩, ?_⟩
      · intro hmem
        have := hseen x.code hmem
        rw [List.contains_cons] at this
        simp at this
      · intro c hc
        rcases List.mem_cons.mp hc with rfl | hc2
        · exact h1f
        · have := hseen c hc2
          rw [List.contains_cons] at this
          cases hcs : seen.contains c with
          | false => rfl
          | true => rw [hcs] at this; simp at this

/-- Claim C8: filename language identification returns, without duplicate
codes, exactly the table languages whose lowercased canonical code or listed
alias equals some non-skipped dot-separated segment of the lowercased
filename, in segment order with the first occurrence per code kept (the
specExtract description); in particular jp identifies ja, eng identifies en,
and zh-hant identifies zh-TW. -/
theorem c8_extract_language :
    (∀ filename : String, extractLanguageFromFilename filename = specExtract filename) ∧
    (∀ (filename : String) (L : LanguageInfo),
        L ∈ extractLanguageFromFilename filename ↔
          (L ∈ COMPREHENSIVE_LANGUAGES ∧
            ∃ part ∈ nonSkippedParts filename, matchesPart L part = true)) ∧
    (∀ filename : String,
        ((extractLanguageFromFilename filename).map LanguageInfo.code).Nodup) ∧
    ((extractLanguageFromFilename "show.jp.srt").map LanguageInfo.code = ["ja"]) ∧
    ((extractLanguageFromFilename "show.eng.srt").map LanguageInfo.code = ["en"]) ∧
    ((extractLanguageFromFilename "show.zh-hant.srt").map LanguageInfo.code = ["zh-TW"]) := by
  refine ⟨extract_eq_spec, ?_, ?_, by decide, by decide, by decide⟩
  · intro f L
    rw [extract_eq_spec, specExtract]
    have htab : ∀ a ∈ matchedList f, a ∈ COMPREHENSIVE_LANGUAGES := by
      intro a ha
      rcases List.mem_filterMap.mp ha with ⟨part, _, hl⟩
      exact mem_table_of_lookup hl
    rw [dedupeNew_mem (matchedList f) [] htab L]
    constructor
    · rintro ⟨hmem, _⟩
      rcases List.mem_filterMap.mp hmem with ⟨part, hpart, hl⟩
      obtain ⟨htabL, hm⟩ := (lookup_iff part L).mp hl
      exact ⟨htabL, part, hpart, hm⟩
    · rintro ⟨htabL, part, hpart, hm⟩
      exact ⟨List.mem_filterMap.mpr ⟨part, hpart, (lookup_iff part L).mpr ⟨htabL, hm⟩⟩, rfl⟩
  · intro f
    rw [extract_eq_spec, specExtract]
    exact (dedupeNew_codes_nodup (matchedList f) []).1

/-- Witness for claim C8: the jp segment of a concrete filename identifies
Japanese. -/
theorem c8_extract_language_witness :
    (extractLanguageFromFilename "show.jp.srt").map LanguageInfo.code = ["ja"] :=
  c8_extract_language.2.2.2.1

/-! ## Dual-subtitle filename parsing

Embedded from parseDualLanguages in SubtitleManager.tsx lines 39-45, which
matches the anchored regular expression

  backslash-dot dual backslash-dot ([a-zA-Z]{2,3}(?:-[a-zA-Z]{2,4})?) hyphen
  ([a-zA-Z]{2,3}(?:-[a-zA-Z]{2,4})?) backslash-dot [^.]+ dollar

against the filename and returns the two captured groups, or null on no
match.  The matcher below hand-compiles exactly this pattern: the bounded
quantifiers are expanded into their finitely many parses, tried in the
backtracking order of the regex engine (longest first for greedy quantifiers,
presence before absence for the optional group), and the scan tries match
start positions left to right, returning the first success.
-/

/-- Greedy piece [a-zA-Z]{2} at the front of the input. -/
def grab2 : List Char -> Option (List Char × List Char)
  | a :: b :: r => if a.isAlpha && b.isAlpha then some ([a, b], r) else none
  | _ => none

/-- Greedy piece [a-zA-Z]{3} at the front of the input. -/
def grab3 : List Char -> Option (List Char × List Char)
  | a :: b :: c :: r => if a.isAlpha && b.isAlpha && c.isAlpha then some ([a, b, c], r) else none
  | _ => none

/-- Greedy piece [a-zA-Z]{4} at the front of the input. -/
def grab4 : List Char -> Option (List Char × List Char)
  | a :: b :: c :: d :: r =>
    if a.isAlpha && b.isAlpha && c.isAlpha && d.isAlpha then some ([a, b, c, d], r) else none
  | _ => none

/-- One parse alternative of the capture group expression
[a-zA-Z]{2,3}(?:-[a-zA-Z]{2,4})? : a fixed-width main part and an optional
fixed-width region part after a hyphen. -/
def cand (gm : List Char -> Option (List Char × List Char))
    (gr : Option (List Char -> Option (List Char × List Char)))
    (u : List Char) : Option (List Char × List Char) :=
  match gm u with
  | none => none
  | some (g, rest) =>
    match gr with
    | none => some (g, rest)
    | some gk =>
      match rest with
      | [] => none
      | c :: rest2 =>
        if c = '-' then
          match gk rest2 with
          | some (h2, rest3) => some (g ++ c :: h2, rest3)
          | none => none
        else none

/-- All parses of the capture group expression on the input, in the
backtracking order of the regex engine. -/
def codeCandidates (u : List Char) : List (Option (List Char × List Char)) :=
  [cand grab3 (some grab4) u, cand grab3 (some grab3) u, cand grab3 (some grab2) u,
   cand grab3 none u,
   cand grab2 (some grab4) u, cand grab2 (some grab3) u, cand grab2 (some grab2) u,
   cand grab2 none u]

/-- First defined alternative, i.e. the backtracking choice. -/
def firstSome {α : Type} : List (Option α) -> Option α
  | [] => none
  | some a :: _ => some a
  | none :: t => firstSome t

/-- The trailing piece backslash-dot [^.]+ dollar : one dot, then a nonempty
run of non-dot characters reaching the end of the input. -/
def extTail : List Char -> Bool
  | [] => false
  | c :: t => c == '.' && !t.isEmpty && t.all (fun d => !(d == '.'))

/-- The second capture group followed by the trailing piece. -/
def tryG2 (v : List Char) : Option (List Char) :=
  firstSome ((codeCandidates v).map (fun o =>
    match o with
    | some (g2, w) => if extTail w then some g2 else none
    | none => none))

/-- Both capture groups with the hyphen between them and the trailing
piece, with full backtracking across the alternatives of the first group. -/
def tryGroups (u : List Char) : Option (List Char × List Char) :=
  firstSome ((codeCandidates u).map (fun o =>
    match o with
    | some (g1, rest) =>
      match rest with
      | [] => none
      | c :: v =>
        if c = '-' then
          match tryG2 v with
          | some g2 => some (g1, g2)
          | none => none
        else none
    | none => none))

/-- The literal marker .dual. that opens the match. -/
def dualMarker : List Char := ['.', 'd', 'u', 'a', 'l', '.']

/-- One match attempt at a fixed start position (the rest of the pattern is
anchored to the end of the string). -/
def attemptAt (u : List Char) : Option (String × String) :=
  if u.take 6 = dualMarker then
    match tryGroups (u.drop 6) with
    | some (g1, g2) => some (String.mk g1, String.mk g2)
    | none => none
  else none

/-- Left-to-right scan over match start positions, first success wins. -/
def scanMatch : List Char -> Option (String × String)
  | [] => none
  | c :: t =>
    match attemptAt (c :: t) with
    | some r => some r
    | none => scanMatch t

/-- Embeds parseDualLanguages of SubtitleManager.tsx lines 39-45. -/
def parseDualLanguages (fileName : String) : Option (String × String) :=
  scanMatch fileName.data

/-! ## Shapes of language codes in dual filenames -/

/-- A language code as the claim describes it: a 2-3 letter main part,
optionally followed by a hyphen and a 2-4 letter region part. -/
structure CodeShape where
  main : List Char
  region : Option (List Char)

/-- The characters of the code. -/
def CodeShape.chars (c : CodeShape) : List Char :=
  match c.region with
  | none => c.main
  | some r => c.main ++ '-' :: r

/-- Validity of the main part: 2-3 ASCII letters. -/
def ValidMain (m : List Char) : Prop :=
  (m.length = 2 ∨ m.length = 3) ∧ m.all Char.isAlpha = true

/-- Validity of the region part: 2-4 ASCII letters. -/
def ValidRegion (r : List Char) : Prop :=
  (r.length = 2 ∨ r.length = 3 ∨ r.length = 4) ∧ r.all Char.isAlpha = true

/-- Validity of a whole code shape. -/
def CodeShape.Valid (c : CodeShape) : Prop :=
  ValidMain c.main ∧ match c.region with
    | none => True
    | some r => ValidRegion r

/-- The pairs on which the encoding is decodable: the mis-split arises
exactly when the primary has no region part while the secondary has a 2-3
letter one. -/
def OkPair (p s : CodeShape) : Prop :=
  p.region ≠ none ∨ match s.region with
    | none => True
    | some r => r.length = 4

/-- Validity of an extension: nonempty and free of dots. -/
def ExtOk (e : List Char) : Prop :=
  e ≠ [] ∧ e.all (fun d => !(d == '.')) = true

/-- Number of dots in a character list. -/
def countDots (l : List Char) : Nat := l.countP (fun c => c == '.')

/-! ## Character facts -/

lemma isAlpha_dot : ('.').isAlpha = false := by decide

lemma isAlpha_dash : ('-').isAlpha = false := by decide

lemma alpha_ne_dash {c : Char} (h : c.isAlpha = true) : ¬(c = '-') := by
  intro he
  rw [he] at h
  exact absurd h (by decide)

lemma alpha_beq_dot {c : Char} (h : c.isAlpha = true) : (c == '.') = false := by
  cases hb : c == '.' with
  | false => rfl
  | true =>
    rw [beq_iff_eq.mp hb] at h
    exact absurd h (by decide)

/-! ## Soundness of the matcher pieces -/

lemma grab2_sound : ∀ {u g r : List Char}, grab2 u = some (g, r) →
    u = g ++ r ∧ g.all Char.isAlpha = true := by
  intro u g r h
  rcases u with _ | ⟨a, _ | ⟨b, t⟩⟩
  · simp [grab2] at h
  · simp [grab2] at h
  · rw [show grab2 (a :: b :: t)
        = if (a.isAlpha && b.isAlpha) = true then some ([a, b], t) else none from rfl] at h
    by_cases hc : (a.isAlpha && b.isAlpha) = true
    · rw [if_pos hc] at h
      cases Option.some.inj h
      exact ⟨rfl, by simpa using hc⟩
    · rw [if_neg hc] at h
      exact absurd h (by simp)

lemma grab3_sound : ∀ {u g r : List Char}, grab3 u = some (g, r) →
    u = g ++ r ∧ g.all Char.isAlpha = true := by
  intro u g r h
  rcases u with _ | ⟨a, _ | ⟨b, _ | ⟨c, t⟩⟩⟩
  · simp [grab3] at h
  · simp [grab3] at h
  · simp [grab3] at h
  · rw [show grab3 (a :: b :: c :: t)
        = if (a.isAlpha && b.isAlpha && c.isAlpha) = true
          then some ([a, b, c], t) else none from rfl] at h
    by_cases hc : (a.isAlpha && b.isAlpha && c.isAlpha) = true
    · rw [if_pos hc] at h
      cases Option.some.inj h
      exact ⟨rfl, by simpa [and_assoc] using hc⟩
    · rw [if_neg hc] at h
      exact absurd h (by simp)

lemma grab4_sound : ∀ {u g r : List Char}, grab4 u = some (g, r) →
    u = g ++ r ∧ g.all Char.isAlpha = true := by
  intro u g r h
  rcases u with _ | ⟨a, _ | ⟨b, _ | ⟨c, _ | ⟨d, t⟩⟩⟩⟩
  · simp [grab4] at h
  · simp [grab4] at h
  · simp [grab4] at h
  · simp [grab4] at h
  · rw [show grab4 (a :: b :: c :: d :: t)
        = if (a.isAlpha && b.isAlpha && c.isAlpha && d.isAlpha) = true
          then some ([a, b, c, d], t) else none from rfl] at h
    by_cases hc : (a.isAlpha && b.isAlpha && c.isAlpha && d.isAlpha) = true
    · rw [if_pos hc] at h
      cases Option.some.inj h
      exact ⟨rfl, by simpa [and_assoc] using hc⟩
    · rw [if_neg hc] at h
      exact absurd h (by simp)

/-- Characters of a capture group: letters or hyphens. -/
def alphaDash (c : Char) : Bool := c.isAlpha || c == '-'

lemma all_alphaDash_of_alpha {g : List Char} (h : g.all Char.isAlpha = true) :
    g.all alphaDash = true := by
  rw [List.all_eq_true] at h ⊢
  intro c hc
  rw [alphaDash, Bool.or_eq_true]
  exact Or.inl (h c hc)

lemma cand_sound {gm : List Char -> Option (List Char × List Char)}
    {gr : Option (List Char -> Option (List Char × List Char))}
    (hgm : ∀ {u g r : List Char}, gm u = some (g, r) → u = g ++ r ∧ g.all Char.isAlpha = true)
    (hgr : ∀ gk, gr = some gk →
      ∀ {u g r : List Char}, gk u = some (g, r) → u = g ++ r ∧ g.all Char.isAlpha = true) :
    ∀ {u g r : List Char}, cand gm gr u = some (g, r) →
      u = g ++ r ∧ g.all alphaDash = true := by
  intro u g r h
  rw [cand] at h
  cases hm : gm u with
  | none =>
    rw [hm] at h
    exact absurd h (by simp)
  | some gres =>
    rcases gres with ⟨g0, rest⟩
    rw [hm] at h
    obtain ⟨hu0, hall0⟩ := hgm hm
    cases hgrc : gr with
    | none =>
      rw [hgrc] at h
      replace h : some (g0, rest) = some (g, r) := h
      cases Option.some.inj h
      exact ⟨hu0, all_alphaDash_of_alpha hall0⟩
    | some gk =>
      rw [hgrc] at h
      cases rest with
      | nil =>
        replace h : (none : Option (List Char × List Char)) = some (g, r) := h
        exact absurd h (by simp)
      | cons c rest2 =>
        replace h : (if c = '-' then
            match gk rest2 with
            | some (h2, rest3) => some (g0 ++ c :: h2, rest3)
            | none => none
          else none) = some (g, r) := h
        by_cases hdash : c = '-'
        · rw [if_pos hdash] at h
          cases hk : gk rest2 with
          | none =>
            rw [hk] at h
            exact absurd h (by simp)
          | some kres =>
            rcases kres with ⟨h2l, rest3⟩
            rw [hk] at h
            obtain ⟨hu2, hall2⟩ := hgr gk hgrc hk
            replace h : some (g0 ++ c :: h2l, rest3) = some (g, r) := h
            cases Option.some.inj h
            constructor
            · rw [hu0, hu2]
              simp
            · rw [List.all_append, List.all_cons, hdash,
                all_alphaDash_of_alpha hall0, all_alphaDash_of_alpha hall2]
              decide
        · rw [if_neg hdash] at h
          exact absurd h (by simp)

lemma firstSome_mem {α : Type} : ∀ {l : List (Option α)} {a : α},
    firstSome l = some a → some a ∈ l := by
  intro l
  induction l with
  | nil => intro a h; exact absurd h (by simp [firstSome])
  | cons o t ih =>
    intro a h
    cases o with
    | some b =>
      rw [firstSome] at h
      rw [h]
      exact List.mem_cons_self _ _
    | none =>
      rw [firstSome] at h
      exact List.mem_cons_of_mem _ (ih h)

lemma codeCandidates_sound {v : List Char} {g r : List Char}
    (h : some (g, r) ∈ codeCandidates v) :
    v = g ++ r ∧ g.all alphaDash = true := by
  have hgr4 : ∀ gk, (some grab4 : Option (List Char -> Option (List Char × List Char)))
      = some gk → ∀ {u g r : List Char}, gk u = some (g, r) →
        u = g ++ r ∧ g.all Char.isAlpha = true := by
    intro gk hk
    cases Option.some.inj hk
    exact fun hh => grab4_sound hh
  have hgr3 : ∀ gk, (some grab3 : Option (List Char -> Option (List Char × List Char)))
      = some gk → ∀ {u g r : List Char}, gk u = some (g, r) →
        u = g ++ r ∧ g.all Char.isAlpha = true := by
    intro gk hk
    cases Option.some.inj hk
    exact fun hh => grab3_sound hh
  have hgr2 : ∀ gk, (some grab2 : Option (List Char -> Option (List Char × List Char)))
      = some gk → ∀ {u g r : List Char}, gk u = some (g, r) →
        u = g ++ r ∧ g.all Char.isAlpha = true := by
    intro gk hk
    cases Option.some.inj hk
    exact fun hh => grab2_sound hh
  have hnone : ∀ gk, (none : Option (List Char -> Option (List Char × List Char)))
      = some gk → ∀ {u g r : List Char}, gk u = some (g, r) →
        u = g ++ r ∧ g.all Char.isAlpha = true := by
    intro gk hk
    exact absurd hk (by simp)
  rw [codeCandidates] at h
  rcases List.mem_cons.mp h with he | h
  · exact cand_sound (fun hh => grab3_sound hh) hgr4 he.symm
  · rcases List.mem_cons.mp h with he | h
    · exact cand_sound (fun hh => grab3_sound hh) hgr3 he.symm
    · rcases List.mem_cons.mp h with he | h
      · exact cand_sound (fun hh => grab3_sound hh) hgr2 he.symm
      · rcases List.mem_cons.mp h with he | h
        · exact cand_sound (fun hh => grab3_sound hh) hnone he.symm
        · rcases List.mem_cons.mp h with he | h
          · exact cand_sound (fun hh => grab2_sound hh) hgr4 he.symm
          · rcases List.mem_cons.mp h with he | h
            · exact cand_sound (fun hh => grab2_sound hh) hgr3 he.symm
            · rcases List.mem_cons.mp h with he | h
              · exact cand_sound (fun hh => grab2_sound hh) hgr2 he.symm
              · rcases List.mem_cons.mp h with he | h
                · exact cand_sound (fun hh => grab2_sound hh) hnone he.symm
                · exact absurd h (by simp)

lemma extTail_sound {w : List Char} (h : extTail w = true) :
    ∃ t, w = '.' :: t ∧ t ≠ [] ∧ countDots t = 0 := by
  cases w with
  | nil => exact absurd h (by simp [extTail])
  | cons c t =>
    rw [extTail] at h
    simp only [Bool.and_eq_true] at h
    obtain ⟨⟨hc, hne⟩, hall⟩ := h
    refine ⟨t, by rw [beq_iff_eq.mp hc], by simpa using hne, ?_⟩
    rw [countDots, List.countP_eq_zero]
    intro a ha
    have := List.all_eq_true.mp hall a ha
    simpa using this

lemma countDots_of_alphaDash {g : List Char} (h : g.all alphaDash = true) :
    countDots g = 0 := by
  rw [countDots, List.countP_eq_zero]
  intro a ha
  have h2 := List.all_eq_true.mp h a ha
  rw [alphaDash, Bool.or_eq_true] at h2
  rcases h2 with h2 | h2
  · simpa using alpha_beq_dot h2
  · rw [beq_iff_eq.mp h2]
    decide

lemma tryG2_sound {v : List Char} {g2 : List Char} (h : tryG2 v = some g2) :
    ∃ w, v = g2 ++ w ∧ g2.all alphaDash = true ∧ extTail w = true := by
  rw [tryG2] at h
  have hmem := firstSome_mem h
  rcases List.mem_map.mp hmem with ⟨o, ho, hfo⟩
  cases o with
  | none => exact absurd hfo (by simp)
  | some gw =>
    rcases gw with ⟨g, w⟩
    by_cases htail : extTail w = true
    · replace hfo : (if extTail w then some g else none) = some g2 := hfo
      rw [if_pos htail] at hfo
      cases Option.some.inj hfo
      obtain ⟨hv, hall⟩ := codeCandidates_sound ho
      exact ⟨w, hv, hall, htail⟩
    · replace hfo : (if extTail w then some g else none) = some g2 := hfo
      rw [if_neg htail] at hfo
      exact absurd hfo (by simp)

lemma tryGroups_sound {u : List Char} {g1 g2 : List Char}
    (h : tryGroups u = some (g1, g2)) : countDots u = 1 := by
  rw [tryGroups] at h
  have hmem := firstSome_mem h
  rcases List.mem_map.mp hmem with ⟨o, ho, hfo⟩
  cases o with
  | none => exact absurd hfo (by simp)
  | some gres =>
    rcases gres with ⟨g0, rest⟩
    cases rest with
    | nil => exact absurd hfo (by simp)
    | cons c v =>
      by_cases hdash : c = '-'
      · replace hfo : (if c = '-' then
            match tryG2 v with
            | some g2b => some (g0, g2b)
            | none => none
          else none) = some (g1, g2) := hfo
        rw [if_pos hdash] at hfo
        cases hg2 : tryG2 v with
        | none =>
          rw [hg2] at hfo
          exact absurd hfo (by simp)
        | some g2b =>
          rw [hg2] at hfo
          cases Option.some.inj hfo
          obtain ⟨hu, hall1⟩ := codeCandidates_sound ho
          obtain ⟨w, hv, hall2, htail⟩ := tryG2_sound hg2
          obtain ⟨t, hw, _, ht0⟩ := extTail_sound htail
          have e1 : countDots g1 = 0 := countDots_of_alphaDash hall1
          have e2 : countDots g2 = 0 := countDots_of_alphaDash hall2
          rw [hu, hv, hw, hdash]
          rw [countDots] at e1 e2 ht0 ⊢
          simp [List.countP_append, List.countP_cons, e1, e2, ht0,
            show (('-') == '.') = false from by decide,
            show (('.') == '.') = true from by decide]
      · replace hfo : (if c = '-' then
            match tryG2 v with
            | some g2b => some (g0, g2b)
            | none => none
          else none) = some (g1, g2) := hfo
        rw [if_neg hdash] at hfo
        exact absurd hfo (by simp)

lemma attemptAt_sound {u : List Char} {res : String × String}
    (h : attemptAt u = some res) :
    u.take 6 = dualMarker ∧ countDots u = 3 := by
  rw [attemptAt] at h
  by_cases hm : u.take 6 = dualMarker
  · rw [if_pos hm] at h
    cases hg : tryGroups (u.drop 6) with
    | none =>
      rw [hg] at h
      exact absurd h (by simp)
    | some gres =>
      rcases gres with ⟨g1, g2⟩
      refine ⟨hm, ?_⟩
      have h1 : countDots (u.drop 6) = 1 := tryGroups_sound hg
      have hsplit : u = u.take 6 ++ u.drop 6 := (List.take_append_drop 6 u).symm
      rw [hsplit, countDots, List.countP_append, ← countDots, ← countDots, hm, h1]
      decide
  · rw [if_neg hm] at h
    exact absurd h (by simp)

lemma scanMatch_append (y S : List Char) (hS : countDots S = 3) :
    scanMatch (y ++ S) = scanMatch S := by
  induction y with
  | nil => rfl
  | cons c t ih =>
    rw [List.cons_append, scanMatch]
    cases hat : attemptAt (c :: (t ++ S)) with
    | none => exact ih
    | some r =>
      exfalso
      obtain ⟨htake, hcount⟩ := attemptAt_sound hat
      have hc : c = '.' := by
        have h6 : (c :: (t ++ S)).take 6 = c :: (t ++ S).take 5 := by
          rfl
        rw [h6, dualMarker] at htake
        exact (List.cons.injEq .. ▸ htake).1
      rw [countDots, List.countP_cons, List.countP_append] at hcount
      rw [hc] at hcount
      rw [countDots] at hS
      simp [hS, show (('.') == '.') = true from by decide] at hcount

lemma scanMatch_some_marker {u : List Char} {res : String × String}
    (h : scanMatch u = some res) : dualMarker.IsInfix u := by
  induction u with
  | nil => exact absurd h (by simp [scanMatch])
  | cons c t ih =>
    rw [scanMatch] at h
    cases hat : attemptAt (c :: t) with
    | some r =>
      obtain ⟨htake, _⟩ := attemptAt_sound hat
      refine ⟨[], (c :: t).drop 6, ?_⟩
      rw [List.nil_append, ← htake]
      exact List.take_append_drop 6 (c :: t)
    | none =>
      rw [hat] at h
      obtain ⟨l, r, hlr⟩ := ih h
      exact ⟨c :: l, r, by rw [← hlr]; rfl⟩

/-! ## Matching the canonical dual filename -/

lemma validMain_cases {m : List Char} (h : ValidMain m) :
    (∃ a b, m = [a, b] ∧ a.isAlpha = true ∧ b.isAlpha = true) ∨
    (∃ a b c, m = [a, b, c] ∧ a.isAlpha = true ∧ b.isAlpha = true ∧ c.isAlpha = true) := by
  obtain ⟨hlen, hall⟩ := h
  rcases hlen with h2 | h3
  · rcases List.length_eq_two.mp h2 with ⟨a, b, rfl⟩
    simp only [List.all_cons, List.all_nil, Bool.and_eq_true] at hall
    exact Or.inl ⟨a, b, rfl, hall.1, hall.2.1⟩
  · rcases List.length_eq_three.mp h3 with ⟨a, b, c, rfl⟩
    simp only [List.all_cons, List.all_nil, Bool.and_eq_true] at hall
    exact Or.inr ⟨a, b, c, rfl, hall.1, hall.2.1, hall.2.2.1⟩

lemma length_eq_four {α : Type} {l : List α} (h : l.length = 4) :
    ∃ a b c d, l = [a, b, c, d] := by
  rcases l with _ | ⟨a, _ | ⟨b, _ | ⟨c, _ | ⟨d, _ | ⟨x, t⟩⟩⟩⟩⟩ <;> simp at h
  exact ⟨a, b, c, d, rfl⟩

lemma validRegion_cases {r : List Char} (h : ValidRegion r) :
    (∃ a b, r = [a, b] ∧ a.isAlpha = true ∧ b.isAlpha = true) ∨
    (∃ a b c, r = [a, b, c] ∧ a.isAlpha = true ∧ b.isAlpha = true ∧ c.isAlpha = true) ∨
    (∃ a b c d, r = [a, b, c, d] ∧ a.isAlpha = true ∧ b.isAlpha = true ∧
      c.isAlpha = true ∧ d.isAlpha = true) := by
  obtain ⟨hlen, hall⟩ := h
  rcases hlen with h2 | h3 | h4
  · rcases List.length_eq_two.mp h2 with ⟨a, b, rfl⟩
    simp only [List.all_cons, List.all_nil, Bool.and_eq_true] at hall
    exact Or.inl ⟨a, b, rfl, hall.1, hall.2.1⟩
  · rcases List.length_eq_three.mp h3 with ⟨a, b, c, rfl⟩
    simp only [List.all_cons, List.all_nil, Bool.and_eq_true] at hall
    exact Or.inr (Or.inl ⟨a, b, c, rfl, hall.1, hall.2.1, hall.2.2.1⟩)
  · rcases length_eq_four h4 with ⟨a, b, c, d, rfl⟩
    simp only [List.all_cons, List.all_nil, Bool.and_eq_true] at hall
    exact Or.inr (Or.inr ⟨a, b, c, d, rfl, hall.1, hall.2.1, hall.2.2.1, hall.2.2.2.1⟩)

/-- The second capture group parses exactly the secondary code when it is
followed by the dot and a valid extension. -/
lemma tryG2_code {s : CodeShape} (hs : s.Valid) {e : List Char} (he : ExtOk e) :
    tryG2 (s.chars ++ '.' :: e) = some s.chars := by
  obtain ⟨hne, hall⟩ := he
  rcases e with _ | ⟨e1, et⟩
  · exact absurd rfl hne
  obtain ⟨sm, sr⟩ := s
  obtain ⟨hmain, hreg⟩ := hs
  cases sr with
  | none =>
    rcases validMain_cases hmain with ⟨a, b, rfl, ha, hb⟩ | ⟨a, b, c, rfl, ha, hb, hc⟩ <;>
      simp_all [tryG2, codeCandidates, cand, grab2, grab3, grab4, firstSome, extTail,
        CodeShape.chars, isAlpha_dot, isAlpha_dash, alpha_ne_dash, alpha_beq_dot]
  | some r =>
    have hr : ValidRegion r := hreg
    rcases validMain_cases hmain with ⟨a, b, rfl, ha, hb⟩ | ⟨a, b, c, rfl, ha, hb, hc⟩ <;>
      rcases validRegion_cases hr with
        ⟨r1, r2, rfl, h1, h2⟩ | ⟨r1, r2, r3, rfl, h1, h2, h3⟩ |
        ⟨r1, r2, r3, r4, rfl, h1, h2, h3, h4⟩ <;>
      simp_all [tryG2, codeCandidates, cand, grab2, grab3, grab4, firstSome, extTail,
        CodeShape.chars, isAlpha_dot, isAlpha_dash, alpha_ne_dash, alpha_beq_dot]

/-- A four-letter region after the mis-split candidate makes the second
group fail, forcing the engine to backtrack to the correct split. -/
lemma tryG2_region4_none {r1 r2 r3 r4 : Char} (h1 : r1.isAlpha = true)
    (h2 : r2.isAlpha = true) (h3 : r3.isAlpha = true) (h4 : r4.isAlpha = true)
    {e : List Char} (he : ExtOk e) :
    tryG2 ([r1, r2, r3, r4] ++ '.' :: e) = none := by
  obtain ⟨hne, hall⟩ := he
  rcases e with _ | ⟨e1, et⟩
  · exact absurd rfl hne
  simp_all [tryG2, codeCandidates, cand, grab2, grab3, grab4, firstSome, extTail,
    isAlpha_dot, isAlpha_dash, alpha_ne_dash, alpha_beq_dot]

/-- When the primary code carries a region part, the first capture group
consumes it exactly, whatever the rest parses to. -/
lemma tryGroups_with_region {m q : List Char} (hm : ValidMain m) (hq : ValidRegion q)
    {m1 : Char} {vrest : List Char} (hm1 : m1.isAlpha = true)
    {g2 : List Char} (hv : tryG2 (m1 :: vrest) = some g2) :
    tryGroups ((m ++ '-' :: q) ++ '-' :: m1 :: vrest) = some (m ++ '-' :: q, g2) := by
  rcases validMain_cases hm with ⟨a, b, rfl, ha, hb⟩ | ⟨a, b, c, rfl, ha, hb, hc⟩ <;>
    rcases validRegion_cases hq with
      ⟨q1, q2, rfl, hh1, hh2⟩ | ⟨q1, q2, q3, rfl, hh1, hh2, hh3⟩ |
      ⟨q1, q2, q3, q4, rfl, hh1, hh2, hh3, hh4⟩ <;>
    simp_all [tryGroups, codeCandidates, cand, grab2, grab3, grab4, firstSome,
      isAlpha_dot, isAlpha_dash, alpha_ne_dash, alpha_beq_dot]

set_option maxHeartbeats 4000000 in
/-- When the primary code has no region part, the match is correct exactly
when the secondary has no region part or a four-letter one. -/
lemma tryGroups_no_region {m : List Char} (hm : ValidMain m) {s : CodeShape} (hs : s.Valid)
    (hok : s.region = none ∨ ∃ r, s.region = some r ∧ r.length = 4)
    {e : List Char} (he : ExtOk e) :
    tryGroups (m ++ '-' :: (s.chars ++ '.' :: e)) = some (m, s.chars) := by
  obtain ⟨hne, hall⟩ := he
  rcases e with _ | ⟨e1, et⟩
  · exact absurd rfl hne
  obtain ⟨sm, sr⟩ := s
  obtain ⟨hmain, hreg⟩ := hs
  cases sr with
  | none =>
    rcases validMain_cases hm with ⟨a, b, rfl, ha, hb⟩ | ⟨a, b, c0, rfl, ha, hb, hc0⟩ <;>
      rcases validMain_cases hmain with ⟨x, y, rfl, hx, hy⟩ | ⟨x, y, z, rfl, hx, hy, hz⟩ <;>
        simp_all [tryGroups, tryG2, codeCandidates, cand, grab2, grab3, grab4, firstSome,
          extTail, CodeShape.chars, isAlpha_dot, isAlpha_dash, alpha_ne_dash, alpha_beq_dot]
  | some r =>
    have hr : ValidRegion r := hreg
    rcases hok with hok1 | ⟨r0, hr0, hlen⟩
    · exact absurd hok1 (by simp)
    · cases Option.some.inj hr0
      rcases length_eq_four hlen with ⟨r1, r2, r3, r4, rfl⟩
      have hralpha := hr.2
      simp only [List.all_cons, List.all_nil, Bool.and_eq_true, Bool.and_true] at hralpha
      obtain ⟨h1, h2, h3, h4⟩ := hralpha
      rcases validMain_cases hm with ⟨a, b, rfl, ha, hb⟩ | ⟨a, b, c0, rfl, ha, hb, hc0⟩ <;>
        rcases validMain_cases hmain with ⟨x, y, rfl, hx, hy⟩ | ⟨x, y, z, rfl, hx, hy, hz⟩ <;>
          simp_all [tryGroups, tryG2, codeCandidates, cand, grab2, grab3, grab4, firstSome,
            extTail, CodeShape.chars, isAlpha_dot, isAlpha_dash, alpha_ne_dash, alpha_beq_dot]

/-- The head of a valid code is a letter. -/
lemma chars_head {s : CodeShape} (hs : s.Valid) :
    ∃ m1 rest, s.chars = m1 :: rest ∧ m1.isAlpha = true := by
  obtain ⟨sm, sr⟩ := s
  obtain ⟨hmain, _⟩ := hs
  rcases validMain_cases hmain with ⟨a, b, rfl, ha, _⟩ | ⟨a, b, c, rfl, ha, _, _⟩ <;>
    cases sr <;> exact ⟨a, _, rfl, ha⟩

/-- The full group matcher on the canonical payload primary-secondary.ext
returns exactly the two codes, for every decodable pair. -/
lemma tryGroups_canonical {p s : CodeShape} (hp : p.Valid) (hs : s.Valid)
    (hok : OkPair p s) {e : List Char} (he : ExtOk e) :
    tryGroups (p.chars ++ '-' :: (s.chars ++ '.' :: e)) = some (p.chars, s.chars) := by
  obtain ⟨pm, preg⟩ := p
  obtain ⟨hpmain, hpreg⟩ := hp
  cases preg with
  | none =>
    have hok2 : s.region = none ∨ ∃ r, s.region = some r ∧ r.length = 4 := by
      rcases hok with h | h
      · exact absurd rfl h
      · cases hsr : s.region with
        | none => exact Or.inl rfl
        | some r =>
          rw [hsr] at h
          exact Or.inr ⟨r, rfl, h⟩
    have hres := tryGroups_no_region hpmain hs hok2 he
    simpa [CodeShape.chars] using hres
  | some q =>
    have hq : ValidRegion q := hpreg
    rcases chars_head hs with ⟨m1, rest, hveq, hm1⟩
    have hveq2 : s.chars ++ '.' :: e = m1 :: (rest ++ '.' :: e) := by
      rw [hveq]
      rfl
    have hv : tryG2 (m1 :: (rest ++ '.' :: e)) = some s.chars := by
      rw [← hveq2]
      exact tryG2_code hs he
    have hres := tryGroups_with_region hpmain hq hm1 hv
    rw [show CodeShape.chars ⟨pm, some q⟩ = pm ++ '-' :: q from rfl, hveq2]
    exact hres

lemma chars_alphaDash {c : CodeShape} (h : c.Valid) : c.chars.all alphaDash = true := by
  obtain ⟨m, r⟩ := c
  obtain ⟨hmain, hreg⟩ := h
  cases r with
  | none => exact all_alphaDash_of_alpha hmain.2
  | some q =>
    have hq : ValidRegion q := hreg
    rw [CodeShape.chars, List.all_append, List.all_cons,
      all_alphaDash_of_alpha hmain.2, all_alphaDash_of_alpha hq.2]
    decide

lemma countDots_ext {e : List Char} (he : ExtOk e) : countDots e = 0 := by
  rw [countDots, List.countP_eq_zero]
  intro a ha
  have h2 := List.all_eq_true.mp he.2 a ha
  simpa using h2

/-- The canonical suffix .dual.primary-secondary.ext has exactly three
dots. -/
lemma countDots_canonical {p s : CodeShape} (hp : p.Valid) (hs : s.Valid)
    {e : List Char} (he : ExtOk e) :
    countDots (dualMarker ++ (p.chars ++ '-' :: (s.chars ++ '.' :: e))) = 3 := by
  have e1 : countDots p.chars = 0 := countDots_of_alphaDash (chars_alphaDash hp)
  have e2 : countDots s.chars = 0 := countDots_of_alphaDash (chars_alphaDash hs)
  have e3 : countDots e = 0 := countDots_ext he
  rw [countDots] at e1 e2 e3 ⊢
  simp [List.countP_append, List.countP_cons, e1, e2, e3, dualMarker,
    show (('-') == '.') = false from by decide,
    show (('.') == '.') = true from by decide]

/-- A match attempt at the canonical position succeeds with the two codes. -/
lemma attemptAt_canonical {p s : CodeShape} (hp : p.Valid) (hs : s.Valid)
    (hok : OkPair p s) {e : List Char} (he : ExtOk e) :
    attemptAt (dualMarker ++ (p.chars ++ '-' :: (s.chars ++ '.' :: e)))
      = some (String.mk p.chars, String.mk s.chars) := by
  rw [attemptAt]
  have htake : (dualMarker ++ (p.chars ++ '-' :: (s.chars ++ '.' :: e))).take 6
      = dualMarker := by
    rw [show (6 : Nat) = dualMarker.length from rfl]
    exact List.take_left dualMarker _
  have hdrop : (dualMarker ++ (p.chars ++ '-' :: (s.chars ++ '.' :: e))).drop 6
      = p.chars ++ '-' :: (s.chars ++ '.' :: e) := by
    rw [show (6 : Nat) = dualMarker.length from rfl]
    exact List.drop_left dualMarker _
  rw [if_pos htake, hdrop, tryGroups_canonical hp hs hok he]

/-- Claim C7, counterexample: for the pair primary en, secondary zh-TW the
regular expression mis-splits the encoded filename, returning en-zh and TW
instead of en and zh-TW. -/
theorem c7_counterexample :
    parseDualLanguages "m.dual.en-zh-TW.srt" ≠ some ("en", "zh-TW") ∧
    parseDualLanguages "m.dual.en-zh-TW.srt" = some ("en-zh", "TW") := by
  constructor
  · decide
  · decide

/-- Claim C7 amended: the dual filename encoding
base.dual.primary-secondary.ext is decoded back to exactly the pair
(primary, secondary) for every base, extension and valid pair of codes,
except that the pair must be decodable: the mis-split arises exactly when the
primary carries no region suffix while the secondary carries a 2-3 letter
one (a four-letter region recovers through backtracking).  Filenames whose
characters do not contain the .dual. marker parse to null. -/
theorem c7_dual_filename_amended :
    (∀ (base ext : String) (p s : CodeShape),
        p.Valid → s.Valid → OkPair p s → ExtOk ext.data →
        parseDualLanguages
            (base ++ ".dual." ++ String.mk p.chars ++ "-" ++ String.mk s.chars ++ "." ++ ext)
          = some (String.mk p.chars, String.mk s.chars)) ∧
    (∀ fileName : String, ¬ List.IsInfix dualMarker fileName.data →
        parseDualLanguages fileName = none) := by
  constructor
  · intro base ext p s hp hs hok hext
    have hdata : (base ++ ".dual." ++ String.mk p.chars ++ "-" ++ String.mk s.chars
        ++ "." ++ ext).data
        = base.data ++ (dualMarker ++ (p.chars ++ '-' :: (s.chars ++ '.' :: ext.data))) := by
      simp [String.data_append]
      rfl
    rw [parseDualLanguages, hdata,
      scanMatch_append base.data _ (countDots_canonical hp hs hext)]
    have hattempt := attemptAt_canonical hp hs hok hext
    rw [show dualMarker ++ (p.chars ++ '-' :: (s.chars ++ '.' :: ext.data))
        = '.' :: ('d' :: 'u' :: 'a' :: 'l' :: '.' :: (p.chars ++ '-' :: (s.chars ++ '.' :: ext.data)))
      from rfl] at hattempt ⊢
    rw [scanMatch, hattempt]
  · intro fileName hmark
    cases hp : parseDualLanguages fileName with
    | none => rfl
    | some r =>
      rw [parseDualLanguages] at hp
      exact absurd (scanMatch_some_marker hp) hmark

/-- Witness for the amended claim C7: a zh-TW and en pair decodes, and a
filename without the marker parses to null. -/
theorem c7_dual_filename_amended_witness :
    parseDualLanguages "Movie.dual.zh-TW-en.srt" = some ("zh-TW", "en") ∧
    parseDualLanguages "movie.en.srt" = none := by
  constructor
  · have h := c7_dual_filename_amended.1 "Movie" "srt"
      ⟨['z', 'h'], some ['T', 'W']⟩ ⟨['e', 'n'], none⟩
      ⟨⟨Or.inl rfl, by decide⟩, ⟨Or.inl rfl, by decide⟩⟩
      ⟨⟨Or.inl rfl, by decide⟩, trivial⟩
      (Or.inl (by decide))
      ⟨by decide, by decide⟩
    rw [show ("Movie.dual.zh-TW-en.srt" : String)
        = "Movie" ++ ".dual." ++ String.mk ['z', 'h', '-', 'T', 'W'] ++ "-"
          ++ String.mk ['e', 'n'] ++ "." ++ "srt" from by decide]
    rw [show (("zh-TW" : String), ("en" : String))
        = (String.mk ['z', 'h', '-', 'T', 'W'], String.mk ['e', 'n']) from by decide]
    exact h
  · exact c7_dual_filename_amended.2 "movie.en.srt" (by decide)

/-! ## The dual-subtitle pipeline

The backend sources (cue model, merge engine, synchronizer adapter, job
orchestrator) are not among the provided files; only their README, their
TypeScript response types and their frontend callers are.  The definitions
below are therefore modelled from the specification, as their doc comments
state, and the response record types are embedded from the TypeScript
declarations in the repository.
-/

/-- Modelled from the spec (section 3, Cue): one timed subtitle entry with
start and end times in milliseconds and text that may span several lines,
kept here as the list of its lines.  The end time is named stop because end
is a reserved word. -/
structure Cue where
  start : Nat
  stop : Nat
  text : List String
deriving Repr, DecidableEq

/-- Modelled from the spec (section 3, Track): an ordered sequence of Cues
plus a language code; the remaining metadata plays no part in the claims. -/
structure Track where
  language : String
  cues : List Cue
deriving Repr, DecidableEq

/-- Embedded from the repository type DualSubtitleConfig (part_009 lines
1269-1274). -/
structure DualSubtitleConfig where
  primary_language : String
  secondary_language : String
  enable_sync : Option Bool := none
  enable_language_prefix : Option Bool := none
deriving Repr, DecidableEq

/-- Embedded from the details field of the repository type
DualSubtitleResult (part_009 lines 1277-1289). -/
structure DualSubtitleDetails where
  primary_lines : Nat
  secondary_lines : Nat
  total_lines : Nat
  format : String
  sync_warnings : Option (List String) := none
deriving Repr, DecidableEq

/-- Embedded from the repository type DualSubtitleResult (part_009 lines
1277-1289). -/
structure DualSubtitleResult where
  success : Bool
  message : String
  output_file : String
  output_path : String
  details : DualSubtitleDetails
deriving Repr, DecidableEq

/-- The slot a merged cue came from. -/
inductive Slot
  | primarySlot
  | secondarySlot
deriving Repr, DecidableEq

/-- A cue of the merged track, tagged with its slot. -/
structure MergedCue where
  slot : Slot
  cue : Cue
deriving Repr, DecidableEq

/-- Uppercasing for the bracketed language tag. -/
def toUpper (s : String) : String := String.mk (s.data.map Char.toUpper)

/-- Modelled from the spec (section 4.4): the optional bracketed language
tag prepended to the text of a cue. -/
def addLangTag (tag : String) : List String -> List String
  | [] => [tag]
  | l :: ls => (tag ++ " " ++ l) :: ls

/-- Modelled from the spec (section 4.4): tag one source cue with its slot,
optionally prefixing the bracketed language code. -/
def tagCue (slot : Slot) (langCode : String) (withTag : Bool) (c : Cue) : MergedCue :=
  if withTag then
    ⟨slot, { c with text := addLangTag ("[" ++ toUpper langCode ++ "]") c.text }⟩
  else ⟨slot, c⟩

/-- Modelled from the spec (section 4.4, Merge): the two cue streams are
concatenated, each cue tagged with its slot and optional language tag, and
the result is sorted by start time with a stable sort, preserving
primary-before-secondary order on equal start times; no cue is dropped,
split or time-merged. -/
def mergeTracks (primary secondary : Track) (cfg : DualSubtitleConfig) : List MergedCue :=
  let withTag := cfg.enable_language_prefix.getD true
  let tagged :=
    primary.cues.map (tagCue Slot.primarySlot cfg.primary_language withTag) ++
    secondary.cues.map (tagCue Slot.secondarySlot cfg.secondary_language withTag)
  tagged.mergeSort (fun a b => a.cue.start ≤ b.cue.start)

/-- Modelled from the spec (sections 4.4 and 6): the result record reported
for a successful merge, with line counts taken from the inputs and the
merged output. -/
def mkDualResult (primary secondary : Track) (cfg : DualSubtitleConfig)
    (outFile outPath : String) (warnings : List String) : DualSubtitleResult :=
  { success := true
    message := "Dual subtitles created"
    output_file := outFile
    output_path := outPath
    details :=
      { primary_lines := primary.cues.length
        secondary_lines := secondary.cues.length
        total_lines := (mergeTracks primary secondary cfg).length
        format := "srt"
        sync_warnings := if warnings.isEmpty then none else some warnings } }

/-- A 120-cue track for the spec scenario. -/
def track120 : Track :=
  { language := "en"
    cues := (List.range 120).map (fun i => ⟨i * 2000, i * 2000 + 1500, ["line en"]⟩) }

/-- A 118-cue track for the spec scenario. -/
def track118 : Track :=
  { language := "ja"
    cues := (List.range 118).map (fun i => ⟨i * 2000 + 100, i * 2000 + 1600, ["line ja"]⟩) }

/-- The configuration of the spec scenario: sync disabled, prefixes on. -/
def scenarioConfig : DualSubtitleConfig :=
  { primary_language := "en"
    secondary_language := "ja"
    enable_sync := some false
    enable_language_prefix := some true }

/-- Claim C3: every merge preserves all cues of both inputs: the output cue
count is the sum of the two input counts, the reported total_lines equals
primary_lines plus secondary_lines, and the 120 plus 118 cue scenario
produces 238 output cues. -/
theorem c3_merge_cue_count :
    (∀ (primary secondary : Track) (cfg : DualSubtitleConfig),
        (mergeTracks primary secondary cfg).length
          = primary.cues.length + secondary.cues.length) ∧
    (∀ (primary secondary : Track) (cfg : DualSubtitleConfig)
        (outFile outPath : String) (warnings : List String),
        (mkDualResult primary secondary cfg outFile outPath warnings).details.total_lines
          = (mkDualResult primary secondary cfg outFile outPath warnings).details.primary_lines
            + (mkDualResult primary secondary cfg outFile outPath warnings).details.secondary_lines) ∧
    (mergeTracks track120 track118 scenarioConfig).length = 238 := by
  have hlen : ∀ (primary secondary : Track) (cfg : DualSubtitleConfig),
      (mergeTracks primary secondary cfg).length
        = primary.cues.length + secondary.cues.length := by
    intro p s cfg
    rw [mergeTracks]
    simp [List.length_mergeSort]
  refine ⟨hlen, ?_, ?_⟩
  · intro p s cfg outFile outPath warnings
    simpa [mkDualResult] using hlen p s cfg
  · rw [hlen track120 track118 scenarioConfig]
    simp [track120, track118]

/-! ## Synchronizer adapter and hybrid sync -/

/-- Modelled from the spec (section 4.3): a synchronization reference is
either the media timeline or a previously aligned track. -/
inductive SyncReference
  | media : SyncReference
  | track : Track -> SyncReference
deriving Repr, DecidableEq

/-- Modelled from the spec (sections 4.3 and 6): the observable outcome of
one external tool invocation: an aligned track, a timeout, a missing tool,
or a non-zero exit code. -/
inductive SyncToolOutcome
  | aligned : Track -> SyncToolOutcome
  | timeout : SyncToolOutcome
  | toolMissing : SyncToolOutcome
  | exitCode : Nat -> SyncToolOutcome
deriving Repr, DecidableEq

/-- Whether an outcome is a tool failure (timeout, missing tool, non-zero
exit). -/
def SyncToolOutcome.isFailure : SyncToolOutcome -> Bool
  | .aligned _ => false
  | .timeout => true
  | .toolMissing => true
  | .exitCode n => n != 0

/-- Modelled from the spec (section 4.3): the adapter wraps one tool
invocation; on success it returns the aligned track, and on every failure it
returns the original, unsynchronized track together with a warning instead
of an error. A zero exit code returns the input unchanged with no warning. -/
def synchronize (t : Track) (outcome : SyncToolOutcome) : Track × List String :=
  match outcome with
  | .aligned aligned => (aligned, [])
  | .timeout => (t, ["sync timed out, using original timing"])
  | .toolMissing => (t, ["sync tool not available, using original timing"])
  | .exitCode n =>
    if n = 0 then (t, [])
    else (t, ["sync tool failed, using original timing"])

/-- Modelled from the spec (sections 4.3 and 4.6): one dual-subtitle
creation with hybrid sync, recording every synchronization call it makes as
a pair of target track and reference.  The synchronization function is a
parameter standing for the adapter. -/
def createDualSubtitle (syncFn : Track -> SyncReference -> Track)
    (cfg : DualSubtitleConfig) (primary secondary : Track) :
    List (Track × SyncReference) × List MergedCue :=
  if cfg.enable_sync.getD true then
    let syncedPrimary := syncFn primary SyncReference.media
    let syncedSecondary := syncFn secondary (SyncReference.track syncedPrimary)
    ([(primary, SyncReference.media),
      (secondary, SyncReference.track syncedPrimary)],
      mergeTracks syncedPrimary syncedSecondary cfg)
  else ([], mergeTracks primary secondary cfg)

/-- A configuration with both sync and prefixes enabled. -/
def scenarioBothOn : DualSubtitleConfig :=
  { primary_language := "en"
    secondary_language := "ja"
    enable_sync := some true
    enable_language_prefix := some true }

/-- Claim C4: with sync enabled, the pipeline makes exactly two
synchronization calls: the primary track against the media, then the
secondary track against the already-synced primary track (the value the
first call returned), never against the original primary and never against
the media. -/
theorem c4_hybrid_sync :
    ∀ (syncFn : Track -> SyncReference -> Track) (cfg : DualSubtitleConfig)
      (primary secondary : Track),
      cfg.enable_sync.getD true = true →
      (createDualSubtitle syncFn cfg primary secondary).1
        = [(primary, SyncReference.media),
           (secondary, SyncReference.track (syncFn primary SyncReference.media))] := by
  intro syncFn cfg primary secondary hsync
  rw [createDualSubtitle, if_pos hsync]

/-- Witness for claim C4 at a concrete sync function and configuration. -/
theorem c4_hybrid_sync_witness :
    (createDualSubtitle
        (fun t _ => { t with cues := t.cues.map (fun c => ⟨c.start + 10, c.stop + 10, c.text⟩) })
        scenarioBothOn ⟨"en", []⟩ ⟨"ja", []⟩).1
      = [(⟨"en", []⟩, SyncReference.media),
         (⟨"ja", []⟩, SyncReference.track
            ((fun (t : Track) (_ : SyncReference) =>
              { t with cues := t.cues.map (fun c => ⟨c.start + 10, c.stop + 10, c.text⟩) })
              ⟨"en", []⟩ SyncReference.media))] :=
  c4_hybrid_sync _ scenarioBothOn ⟨"en", []⟩ ⟨"ja", []⟩ (by decide)

/-- Claim C5: on every tool failure the adapter returns the original track
unchanged together with a nonempty warning, never an error, and the
enclosing creation still reports success, carrying the warning in the
result metadata. -/
theorem c5_sync_fallback :
    ∀ (t : Track) (outcome : SyncToolOutcome),
      SyncToolOutcome.isFailure outcome = true →
      (synchronize t outcome).1 = t ∧ (synchronize t outcome).2 ≠ [] ∧
      ∀ (secondary : Track) (cfg : DualSubtitleConfig) (outFile outPath : String),
        (mkDualResult (synchronize t outcome).1 secondary cfg outFile outPath
            (synchronize t outcome).2).success = true ∧
        (mkDualResult (synchronize t outcome).1 secondary cfg outFile outPath
            (synchronize t outcome).2).details.sync_warnings
          = some (synchronize t outcome).2 := by
  intro t outcome hfail
  have hmain : (synchronize t outcome).1 = t ∧ (synchronize t outcome).2 ≠ [] := by
    cases outcome with
    | aligned a => exact absurd hfail (by simp [SyncToolOutcome.isFailure])
    | timeout => exact ⟨rfl, by simp [synchronize]⟩
    | toolMissing => exact ⟨rfl, by simp [synchronize]⟩
    | exitCode n =>
      have hn : ¬(n = 0) := by
        intro h0
        rw [SyncToolOutcome.isFailure, h0] at hfail
        exact absurd hfail (by decide)
      exact ⟨by rw [synchronize, if_neg hn], by rw [synchronize, if_neg hn]; simp⟩
  refine ⟨hmain.1, hmain.2, ?_⟩
  intro secondary cfg outFile outPath
  refine ⟨rfl, ?_⟩
  rw [mkDualResult]
  simp only [List.isEmpty_eq_true]
  rw [if_neg hmain.2]

/-- Witness for claim C5 at a concrete track and a timeout outcome. -/
theorem c5_sync_fallback_witness :
    (synchronize ⟨"en", [⟨0, 1000, ["hi"]⟩]⟩ SyncToolOutcome.timeout).1
        = ⟨"en", [⟨0, 1000, ["hi"]⟩]⟩ ∧
      (synchronize ⟨"en", [⟨0, 1000, ["hi"]⟩]⟩ SyncToolOutcome.timeout).2 ≠ [] ∧
      ∀ (secondary : Track) (cfg : DualSubtitleConfig) (outFile outPath : String),
        (mkDualResult (synchronize ⟨"en", [⟨0, 1000, ["hi"]⟩]⟩ SyncToolOutcome.timeout).1
            secondary cfg outFile outPath
            (synchronize ⟨"en", [⟨0, 1000, ["hi"]⟩]⟩ SyncToolOutcome.timeout).2).success = true ∧
        (mkDualResult (synchronize ⟨"en", [⟨0, 1000, ["hi"]⟩]⟩ SyncToolOutcome.timeout).1
            secondary cfg outFile outPath
            (synchronize ⟨"en", [⟨0, 1000, ["hi"]⟩]⟩ SyncToolOutcome.timeout).2).details.sync_warnings
          = some (synchronize ⟨"en", [⟨0, 1000, ["hi"]⟩]⟩ SyncToolOutcome.timeout).2 :=
  c5_sync_fallback ⟨"en", [⟨0, 1000, ["hi"]⟩]⟩ SyncToolOutcome.timeout (by decide)

/-! ## Job progress -/

/-- Embedded from the repository type JobProgress (part_009 lines
1374-1382); the open-ended details record is omitted. -/
structure JobProgress where
  current_step : String
  current_item : String
  processed : Nat
  total : Nat
  percentage : Nat
  estimated_time_remaining : String
deriving Repr, DecidableEq

/-- Modelled from the spec (sections 4.6 and 5): the sequence of progress
updates a bulk job commits over its lifetime: one update at start with zero
processed items, then one update after each worklist item, carrying the
processed count so far out of the fixed total. -/
def jobProgressTrace (items : List String) : List JobProgress :=
  let total := items.length
  let pct := fun (k : Nat) => if total = 0 then 100 else k * 100 / total
  { current_step := "starting"
    current_item := ""
    processed := 0
    total := total
    percentage := pct 0
    estimated_time_remaining := "" } ::
  items.mapIdx (fun i item =>
    { current_step := "processing"
      current_item := item
      processed := i + 1
      total := total
      percentage := pct (i + 1)
      estimated_time_remaining := "" })

lemma jobProgressTrace_length (items : List String) :
    (jobProgressTrace items).length = items.length + 1 := by
  simp [jobProgressTrace]

lemma jobProgressTrace_processed (items : List String) (i : Nat)
    (hi : i < (jobProgressTrace items).length) :
    ((jobProgressTrace items).get ⟨i, hi⟩).processed = i := by
  cases i with
  | zero => rfl
  | succ k =>
    have hk : k < items.length := by
      rw [jobProgressTrace_length] at hi
      omega
    simp [jobProgressTrace, List.getElem_mapIdx]

lemma jobProgressTrace_total (items : List String) (i : Nat)
    (hi : i < (jobProgressTrace items).length) :
    ((jobProgressTrace items).get ⟨i, hi⟩).total = items.length := by
  cases i with
  | zero => rfl
  | succ k =>
    have hk : k < items.length := by
      rw [jobProgressTrace_length] at hi
      omega
    simp [jobProgressTrace, List.getElem_mapIdx]

/-- Claim C9: across the whole sequence of committed progress updates of a
job, the processed count never decreases from one update to a later one,
and never exceeds the total count. -/
theorem c9_progress_monotone :
    ∀ (items : List String) (i j : Nat)
      (hi : i < (jobProgressTrace items).length)
      (hj : j < (jobProgressTrace items).length),
      i ≤ j →
      ((jobProgressTrace items).get ⟨i, hi⟩).processed
        ≤ ((jobProgressTrace items).get ⟨j, hj⟩).processed ∧
      ((jobProgressTrace items).get ⟨j, hj⟩).processed
        ≤ ((jobProgressTrace items).get ⟨j, hj⟩).total := by
  intro items i j hi hj hij
  rw [jobProgressTrace_processed items i hi, jobProgressTrace_processed items j hj,
    jobProgressTrace_total items j hj]
  rw [jobProgressTrace_length] at hj
  omega

/-- Witness for claim C9 on a three-episode job. -/
theorem c9_progress_monotone_witness :
    ((jobProgressTrace ["e1", "e2", "e3"]).get ⟨1, by decide⟩).processed
        ≤ ((jobProgressTrace ["e1", "e2", "e3"]).get ⟨3, by decide⟩).processed ∧
      ((jobProgressTrace ["e1", "e2", "e3"]).get ⟨3, by decide⟩).processed
        ≤ ((jobProgressTrace ["e1", "e2", "e3"]).get ⟨3, by decide⟩).total :=
  c9_progress_monotone ["e1", "e2", "e3"] 1 3 (by decide) (by decide) (by decide)

/-! ## Cue codec

Modelled from the spec (section 4.1): the codec parses and serializes the
one plain timed-text output format (SRT-style numbered blocks).  The raw
text is modelled at the line level: a file is its list of lines, a cue block
is an index line, a timing line hh:mm:ss,mmm --> hh:mm:ss,mmm and one or
more nonempty text lines, and blocks are separated by empty lines.  The
parser ignores the index line content, rejects malformed timing lines,
minutes or seconds of 60 or more, and zero-length or reversed time ranges,
as the spec requires.
-/

/-- Value of a decimal digit character. -/
def digitVal (c : Char) : Nat := c.toNat - 48

/-- Two-digit zero-padded rendering of a number below 100. -/
def pad2 (n : Nat) : List Char := [Nat.digitChar (n / 10), Nat.digitChar (n % 10)]

/-- Three-digit zero-padded rendering of a number below 1000. -/
def pad3 (n : Nat) : List Char :=
  [Nat.digitChar (n / 100), Nat.digitChar (n / 10 % 10), Nat.digitChar (n % 10)]

/-- Render milliseconds as hh:mm:ss,mmm. -/
def formatTime (n : Nat) : List Char :=
  pad2 (n / 3600000) ++ ':' ::
    (pad2 (n % 3600000 / 60000) ++ ':' :: (pad2 (n % 60000 / 1000) ++ ',' :: pad3 (n % 1000)))

/-- The arrow separating the two timestamps of a timing line. -/
def arrowSep : List Char := [' ', '-', '-', '>', ' ']

/-- The timing line of one cue. -/
def timingLine (c : Cue) : String :=
  String.mk (formatTime c.start ++ arrowSep ++ formatTime c.stop)

/-- Parse two digit characters. -/
def parse2 (a b : Char) : Option Nat :=
  if a.isDigit && b.isDigit then some (digitVal a * 10 + digitVal b) else none

/-- Parse three digit characters. -/
def parse3 (a b c : Char) : Option Nat :=
  if a.isDigit && b.isDigit && c.isDigit then
    some (digitVal a * 100 + digitVal b * 10 + digitVal c)
  else none

/-- Parse a timestamp hh:mm:ss,mmm; minutes and seconds above 59 are
rejected. -/
def parseTime : List Char -> Option Nat
  | [h1, h2, c1, m1, m2, c2, s1, s2, c3, x1, x2, x3] =>
    if (c1 == ':') && (c2 == ':') && (c3 == ',') then
      match parse2 h1 h2, parse2 m1 m2, parse2 s1 s2, parse3 x1 x2 x3 with
      | some hh, some mm, some ss, some ms =>
        if mm < 60 ∧ ss < 60 then
          some (hh * 3600000 + mm * 60000 + ss * 1000 + ms)
        else none
      | _, _, _, _ => none
    else none
  | _ => none

/-- Parse a timing line into the two timestamps. -/
def parseTimingLine (line : String) : Option (Nat × Nat) :=
  let cs := line.data
  if (cs.drop 12).take 5 = arrowSep then
    match parseTime (cs.take 12), parseTime (cs.drop 17) with
    | some a, some b => some (a, b)
    | _, _ => none
  else none

/-- Decimal digits of a number, via structural fuel. -/
def natCharsAux : Nat -> Nat -> List Char
  | 0, _ => []
  | fuel + 1, n =>
    if n < 10 then [Nat.digitChar n]
    else natCharsAux fuel (n / 10) ++ [Nat.digitChar (n % 10)]

/-- Decimal rendering of a number. -/
def natChars (n : Nat) : List Char := natCharsAux (n + 1) n

/-- One serialized cue block: index line, timing line, text lines. -/
def serializeBlock (idx : Nat) (c : Cue) : List String :=
  String.mk (natChars (idx + 1)) :: timingLine c :: c.text

/-- The serialized blocks of a cue list, numbered from the given index. -/
def serializeBlocksFrom : Nat -> List Cue -> List (List String)
  | _, [] => []
  | i, c :: rest => serializeBlock i c :: serializeBlocksFrom (i + 1) rest

/-- Join blocks with one empty separator line between consecutive blocks. -/
def joinBlocks : List (List String) -> List String
  | [] => []
  | [b] => b
  | b :: rest => b ++ "" :: joinBlocks rest

/-- Serialize a cue list to its lines. -/
def serializeSRT (cues : List Cue) : List String :=
  joinBlocks (serializeBlocksFrom 0 cues)

/-- Split lines into runs separated by empty lines, keeping empty runs. -/
def splitBlocksAux : List String -> List String -> List (List String)
  | [], cur => [cur.reverse]
  | l :: rest, cur =>
    if l = "" then cur.reverse :: splitBlocksAux rest []
    else splitBlocksAux rest (l :: cur)

/-- The nonempty blocks of a line list. -/
def splitBlocks (lines : List String) : List (List String) :=
  (splitBlocksAux lines []).filter (fun b => !b.isEmpty)

/-- Parse one block: the index line is ignored, the timing line must parse,
the text must be at least one nonempty line, and zero-length or reversed
ranges are rejected. -/
def parseBlock (b : List String) : Option Cue :=
  match b with
  | _ :: timing :: textLines =>
    if textLines.isEmpty then none
    else if textLines.all (fun l => !(l == "")) then
      match parseTimingLine timing with
      | some (a, b2) => if a < b2 then some ⟨a, b2, textLines⟩ else none
      | none => none
    else none
  | _ => none

/-- Parse every block, failing if any block fails. -/
def parseBlocks : List (List String) -> Option (List Cue)
  | [] => some []
  | b :: rest =>
    match parseBlock b, parseBlocks rest with
    | some c, some cs => some (c :: cs)
    | _, _ => none

/-- Parse a whole file given as its lines. -/
def parseSRT (lines : List String) : Option (List Cue) :=
  parseBlocks (splitBlocks lines)

/-- The invariants every parsed cue satisfies. -/
def CueWF (c : Cue) : Prop :=
  c.start < c.stop ∧ c.stop < 360000000 ∧ c.text ≠ [] ∧ ∀ l ∈ c.text, l ≠ ""

/-! ## Round-trip of the codec -/

lemma digitChar_isDigit {d : Nat} (h : d < 10) : (Nat.digitChar d).isDigit = true := by
  have hall : ∀ d, d < 10 → (Nat.digitChar d).isDigit = true := by decide
  exact hall d h

lemma digitVal_digitChar {d : Nat} (h : d < 10) : digitVal (Nat.digitChar d) = d := by
  have hall : ∀ d, d < 10 → digitVal (Nat.digitChar d) = d := by decide
  exact hall d h

lemma parse2_pad2 {n : Nat} (h : n < 100) :
    parse2 (Nat.digitChar (n / 10)) (Nat.digitChar (n % 10)) = some n := by
  have h1 : n / 10 < 10 := by omega
  have h2 : n % 10 < 10 := by omega
  rw [parse2, if_pos (by rw [digitChar_isDigit h1, digitChar_isDigit h2]; rfl),
    digitVal_digitChar h1, digitVal_digitChar h2]
  congr 1
  omega

lemma parse3_pad3 {n : Nat} (h : n < 1000) :
    parse3 (Nat.digitChar (n / 100)) (Nat.digitChar (n / 10 % 10)) (Nat.digitChar (n % 10))
      = some n := by
  have h1 : n / 100 < 10 := by omega
  have h2 : n / 10 % 10 < 10 := by omega
  have h3 : n % 10 < 10 := by omega
  rw [parse3, if_pos (by rw [digitChar_isDigit h1, digitChar_isDigit h2,
      digitChar_isDigit h3]; rfl),
    digitVal_digitChar h1, digitVal_digitChar h2, digitVal_digitChar h3]
  congr 1
  omega

lemma parseTime_formatTime {n : Nat} (h : n < 360000000) :
    parseTime (formatTime n) = some n := by
  have hh : n / 3600000 < 100 := by omega
  have hm : n % 3600000 / 60000 < 60 := by
    have : n % 3600000 < 3600000 := Nat.mod_lt n (by norm_num)
    omega
  have hs : n % 60000 / 1000 < 60 := by
    have : n % 60000 < 60000 := Nat.mod_lt n (by norm_num)
    omega
  have hms : n % 1000 < 1000 := Nat.mod_lt n (by norm_num)
  rw [show formatTime n
      = [Nat.digitChar (n / 3600000 / 10), Nat.digitChar (n / 3600000 % 10), ':',
         Nat.digitChar (n % 3600000 / 60000 / 10), Nat.digitChar (n % 3600000 / 60000 % 10), ':',
         Nat.digitChar (n % 60000 / 1000 / 10), Nat.digitChar (n % 60000 / 1000 % 10), ',',
         Nat.digitChar (n % 1000 / 100), Nat.digitChar (n % 1000 / 10 % 10),
         Nat.digitChar (n % 1000 % 10)] from rfl]
  rw [parseTime, if_pos (by decide),
    parse2_pad2 hh, parse2_pad2 (by omega : n % 3600000 / 60000 < 100),
    parse2_pad2 (by omega : n % 60000 / 1000 < 100), parse3_pad3 hms]
  show (if n % 3600000 / 60000 < 60 ∧ n % 60000 / 1000 < 60 then
      some (n / 3600000 * 3600000 + n % 3600000 / 60000 * 60000
        + n % 60000 / 1000 * 1000 + n % 1000)
    else none) = some n
  rw [if_pos ⟨hm, hs⟩]
  congr 1
  have e1 := Nat.div_add_mod n 3600000
  have e2 := Nat.div_add_mod (n % 3600000) 60000
  have e3 : n % 3600000 % 60000 = n % 60000 :=
    Nat.mod_mod_of_dvd n (by norm_num)
  have e4 := Nat.div_add_mod (n % 60000) 1000
  have e5 : n % 60000 % 1000 = n % 1000 :=
    Nat.mod_mod_of_dvd n (by norm_num)
  omega

lemma formatTime_length (n : Nat) : (formatTime n).length = 12 := rfl

lemma parseTimingLine_timingLine {c : Cue} (h1 : c.start < 360000000)
    (h2 : c.stop < 360000000) :
    parseTimingLine (timingLine c) = some (c.start, c.stop) := by
  rw [timingLine, parseTimingLine]
  have hdata : (String.mk (formatTime c.start ++ arrowSep ++ formatTime c.stop)).data
      = formatTime c.start ++ (arrowSep ++ formatTime c.stop) := by
    simp
  rw [hdata]
  have hdrop12 : (formatTime c.start ++ (arrowSep ++ formatTime c.stop)).drop 12
      = arrowSep ++ formatTime c.stop := by
    rw [show (12 : Nat) = (formatTime c.start).length from (formatTime_length c.start).symm]
    exact List.drop_left _ _
  have htake12 : (formatTime c.start ++ (arrowSep ++ formatTime c.stop)).take 12
      = formatTime c.start := by
    rw [show (12 : Nat) = (formatTime c.start).length from (formatTime_length c.start).symm]
    exact List.take_left _ _
  have htake5 : (arrowSep ++ formatTime c.stop).take 5 = arrowSep := by
    rw [show (5 : Nat) = arrowSep.length from rfl]
    exact List.take_left _ _
  have hdrop17 : (formatTime c.start ++ (arrowSep ++ formatTime c.stop)).drop 17
      = formatTime c.stop := by
    have h17 : (17 : Nat) = (formatTime c.start).length + 5 := by
      rw [formatTime_length]
    rw [h17, List.drop_append]
    rw [show (5 : Nat) = arrowSep.length from rfl]
    exact List.drop_left _ _
  rw [hdrop12, htake5, if_pos rfl, htake12, hdrop17,
    parseTime_formatTime h1, parseTime_formatTime h2]

lemma natCharsAux_ne_nil (fuel n : Nat) : natCharsAux (fuel + 1) n ≠ [] := by
  rw [natCharsAux]
  by_cases h : n < 10
  · rw [if_pos h]
    simp
  · rw [if_neg h]
    simp

lemma mk_ne_empty {l : List Char} (h : l ≠ []) : String.mk l ≠ "" := by
  intro he
  exact h (congrArg String.data he)

lemma timingLine_ne_empty (c : Cue) : timingLine c ≠ "" := by
  refine mk_ne_empty ?_
  intro he
  have := congrArg List.length he
  simp [formatTime_length] at this

lemma serializeBlock_lines_ne_empty {idx : Nat} {c : Cue}
    (htext : ∀ l ∈ c.text, l ≠ "") :
    ∀ l ∈ serializeBlock idx c, l ≠ "" := by
  intro l hl
  rcases List.mem_cons.mp hl with rfl | hl2
  · exact mk_ne_empty (natCharsAux_ne_nil _ _)
  · rcases List.mem_cons.mp hl2 with rfl | hl3
    · exact timingLine_ne_empty c
    · exact htext l hl3

lemma parseBlock_serializeBlock {idx : Nat} {c : Cue} (hwf : CueWF c) :
    parseBlock (serializeBlock idx c) = some c := by
  obtain ⟨hlt, hstop, htne, htext⟩ := hwf
  rw [serializeBlock, parseBlock]
  rw [if_neg (by simpa [List.isEmpty_iff] using htne)]
  have hall : c.text.all (fun l => !(l == "")) = true := by
    rw [List.all_eq_true]
    intro l hl
    simpa using htext l hl
  rw [if_pos hall, parseTimingLine_timingLine (by omega) hstop]
  show (if c.start < c.stop then
      some { start := c.start, stop := c.stop, text := c.text } else none) = some c
  rw [if_pos hlt]

lemma splitBlocksAux_no_empty {b : List String} (hb : ∀ l ∈ b, l ≠ "") :
    ∀ cur, splitBlocksAux b cur = [cur.reverse ++ b] := by
  induction b with
  | nil => intro cur; simp [splitBlocksAux]
  | cons l rest ih =>
    intro cur
    rw [splitBlocksAux, if_neg (hb l (List.mem_cons_self l rest))]
    rw [ih (fun x hx => hb x (List.mem_cons_of_mem l hx)) (l :: cur)]
    simp

lemma splitBlocksAux_sep {b : List String} (hb : ∀ l ∈ b, l ≠ "") :
    ∀ (rest : List String) (cur : List String),
      splitBlocksAux (b ++ "" :: rest) cur
        = (cur.reverse ++ b) :: splitBlocksAux rest [] := by
  induction b with
  | nil =>
    intro rest cur
    rw [List.nil_append, splitBlocksAux, if_pos rfl]
    simp
  | cons l bt ih =>
    intro rest cur
    rw [List.cons_append, splitBlocksAux, if_neg (hb l (List.mem_cons_self l bt))]
    rw [ih (fun x hx => hb x (List.mem_cons_of_mem l hx)) rest (l :: cur)]
    simp

/-- Splitting the joined blocks recovers exactly the blocks, when every
block is a nonempty run of nonempty lines. -/
lemma splitBlocks_joinBlocks :
    ∀ (blocks : List (List String)),
      (∀ b ∈ blocks, b ≠ [] ∧ ∀ l ∈ b, l ≠ "") →
      splitBlocks (joinBlocks blocks) = blocks := by
  intro blocks
  induction blocks with
  | nil =>
    intro _
    rw [joinBlocks, splitBlocks, splitBlocksAux]
    simp
  | cons b rest ih =>
    intro hwf
    obtain ⟨hbne, hblines⟩ := hwf b (List.mem_cons_self b rest)
    cases rest with
    | nil =>
      rw [show joinBlocks [b] = b from rfl, splitBlocks,
        splitBlocksAux_no_empty hblines []]
      simp [List.isEmpty_iff, hbne]
    | cons b2 rest2 =>
      rw [show joinBlocks (b :: b2 :: rest2) = b ++ "" :: joinBlocks (b2 :: rest2) from rfl,
        splitBlocks, splitBlocksAux_sep hblines (joinBlocks (b2 :: rest2)) []]
      have ihr := ih (fun x hx => hwf x (List.mem_cons_of_mem b hx))
      rw [splitBlocks] at ihr
      simp [List.isEmpty_iff, hbne, ihr]

lemma digitVal_lt {c : Char} (h : c.isDigit = true) : digitVal c < 10 := by
  rw [Char.isDigit] at h
  simp only [Bool.and_eq_true, decide_eq_true_eq] at h
  obtain ⟨h1, h2⟩ := h
  rw [digitVal]
  have h3 : c.val.toNat ≤ (57 : UInt32).toNat := h2
  have h4 : c.toNat ≤ 57 := by simpa using h3
  omega

lemma parse2_lt {a b : Char} {v : Nat} (h : parse2 a b = some v) : v < 100 := by
  rw [parse2] at h
  by_cases hd : (a.isDigit && b.isDigit) = true
  · rw [if_pos hd] at h
    simp only [Bool.and_eq_true] at hd
    cases Option.some.inj h
    have := digitVal_lt hd.1
    have := digitVal_lt hd.2
    omega
  · rw [if_neg hd] at h
    exact absurd h (by simp)

lemma parse3_lt {a b c : Char} {v : Nat} (h : parse3 a b c = some v) : v < 1000 := by
  rw [parse3] at h
  by_cases hd : (a.isDigit && b.isDigit && c.isDigit) = true
  · rw [if_pos hd] at h
    simp only [Bool.and_eq_true] at hd
    cases Option.some.inj h
    have := digitVal_lt hd.1.1
    have := digitVal_lt hd.1.2
    have := digitVal_lt hd.2
    omega
  · rw [if_neg hd] at h
    exact absurd h (by simp)

lemma parseTime_bound : ∀ {l : List Char} {v : Nat},
    parseTime l = some v → v < 360000000 := by
  intro l v h
  rcases l with _ | ⟨a1, l⟩
  · exact absurd h (by simp [parseTime])
  rcases l with _ | ⟨a2, l⟩
  · exact absurd h (by simp [parseTime])
  rcases l with _ | ⟨a3, l⟩
  · exact absurd h (by simp [parseTime])
  rcases l with _ | ⟨a4, l⟩
  · exact absurd h (by simp [parseTime])
  rcases l with _ | ⟨a5, l⟩
  · exact absurd h (by simp [parseTime])
  rcases l with _ | ⟨a6, l⟩
  · exact absurd h (by simp [parseTime])
  rcases l with _ | ⟨a7, l⟩
  · exact absurd h (by simp [parseTime])
  rcases l with _ | ⟨a8, l⟩
  · exact absurd h (by simp [parseTime])
  rcases l with _ | ⟨a9, l⟩
  · exact absurd h (by simp [parseTime])
  rcases l with _ | ⟨a10, l⟩
  · exact absurd h (by simp [parseTime])
  rcases l with _ | ⟨a11, l⟩
  · exact absurd h (by simp [parseTime])
  rcases l with _ | ⟨a12, l⟩
  · exact absurd h (by simp [parseTime])
  rcases l with _ | ⟨x, rest⟩
  case _ =>
    rw [parseTime] at h
    by_cases hsep : ((a3 == ':') && (a6 == ':') && (a9 == ',')) = true
    · rw [if_pos hsep] at h
      cases hp1 : parse2 a1 a2 with
      | none => rw [hp1] at h; exact absurd h (by simp)
      | some hh =>
        cases hp2 : parse2 a4 a5 with
        | none => rw [hp1, hp2] at h; exact absurd h (by simp)
        | some mm =>
          cases hp3 : parse2 a7 a8 with
          | none => rw [hp1, hp2, hp3] at h; exact absurd h (by simp)
          | some ss =>
            cases hp4 : parse3 a10 a11 a12 with
            | none => rw [hp1, hp2, hp3, hp4] at h; exact absurd h (by simp)
            | some ms =>
              rw [hp1, hp2, hp3, hp4] at h
              replace h : (if mm < 60 ∧ ss < 60 then
                  some (hh * 3600000 + mm * 60000 + ss * 1000 + ms)
                else none) = some v := h
              by_cases hlt : mm < 60 ∧ ss < 60
              · rw [if_pos hlt] at h
                cases Option.some.inj h
                have := parse2_lt hp1
                have := parse3_lt hp4
                omega
              · rw [if_neg hlt] at h
                exact absurd h (by simp)
    · rw [if_neg hsep] at h
      exact absurd h (by simp)
  case _ =>
    exact absurd h (by simp [parseTime])

lemma parseTimingLine_bound {line : String} {a b : Nat}
    (h : parseTimingLine line = some (a, b)) : a < 360000000 ∧ b < 360000000 := by
  rw [parseTimingLine] at h
  by_cases hsep : (line.data.drop 12).take 5 = arrowSep
  · rw [if_pos hsep] at h
    cases hp1 : parseTime (line.data.take 12) with
    | none => rw [hp1] at h; exact absurd h (by simp)
    | some v1 =>
      cases hp2 : parseTime (line.data.drop 17) with
      | none => rw [hp1, hp2] at h; exact absurd h (by simp)
      | some v2 =>
        rw [hp1, hp2] at h
        cases Option.some.inj h
        exact ⟨parseTime_bound hp1, parseTime_bound hp2⟩
  · rw [if_neg hsep] at h
    exact absurd h (by simp)

lemma parseBlock_wf : ∀ {b : List String} {c : Cue}, parseBlock b = some c → CueWF c := by
  intro b c h
  rcases b with _ | ⟨idx, _ | ⟨timing, textLines⟩⟩
  · exact absurd h (by simp [parseBlock])
  · exact absurd h (by simp [parseBlock])
  · rw [parseBlock] at h
    by_cases he : textLines.isEmpty = true
    · rw [if_pos he] at h
      exact absurd h (by simp)
    · rw [if_neg he] at h
      by_cases ha : textLines.all (fun l => !(l == "")) = true
      · rw [if_pos ha] at h
        cases ht : parseTimingLine timing with
        | none => rw [ht] at h; exact absurd h (by simp)
        | some ab =>
          rcases ab with ⟨a, b2⟩
          rw [ht] at h
          replace h : (if a < b2 then
              some { start := a, stop := b2, text := textLines } else none) = some c := h
          by_cases hlt : a < b2
          · rw [if_pos hlt] at h
            cases Option.some.inj h
            obtain ⟨hb1, hb2⟩ := parseTimingLine_bound ht
            refine ⟨hlt, hb2, by simpa [List.isEmpty_iff] using he, ?_⟩
            intro l hl
            simpa using List.all_eq_true.mp ha l hl
          · rw [if_neg hlt] at h
            exact absurd h (by simp)
      · rw [if_neg ha] at h
        exact absurd h (by simp)

lemma parseBlocks_wf : ∀ {bs : List (List String)} {t : List Cue},
    parseBlocks bs = some t → ∀ c ∈ t, CueWF c := by
  intro bs
  induction bs with
  | nil =>
    intro t h c hc
    rw [parseBlocks] at h
    cases Option.some.inj h
    exact absurd hc (by simp)
  | cons b rest ih =>
    intro t h c hc
    rw [parseBlocks] at h
    cases hb : parseBlock b with
    | none => rw [hb] at h; exact absurd h (by simp)
    | some c1 =>
      cases hr : parseBlocks rest with
      | none => rw [hb, hr] at h; exact absurd h (by simp)
      | some cs =>
        rw [hb, hr] at h
        cases Option.some.inj h
        rcases List.mem_cons.mp hc with rfl | hc2
        · exact parseBlock_wf hb
        · exact ih hr c hc2

lemma serializeBlocksFrom_parse {t : List Cue} (hwf : ∀ c ∈ t, CueWF c) :
    ∀ i, parseBlocks (serializeBlocksFrom i t) = some t := by
  induction t with
  | nil => intro i; rfl
  | cons c rest ih =>
    intro i
    rw [serializeBlocksFrom, parseBlocks,
      parseBlock_serializeBlock (hwf c (List.mem_cons_self c rest)),
      ih (fun x hx => hwf x (List.mem_cons_of_mem c hx)) (i + 1)]

lemma serializeBlocksFrom_blocks_ok {t : List Cue} (hwf : ∀ c ∈ t, CueWF c) :
    ∀ i, ∀ b ∈ serializeBlocksFrom i t, b ≠ [] ∧ ∀ l ∈ b, l ≠ "" := by
  induction t with
  | nil => intro i b hb; exact absurd hb (by simp [serializeBlocksFrom])
  | cons c rest ih =>
    intro i b hb
    rw [serializeBlocksFrom] at hb
    rcases List.mem_cons.mp hb with rfl | hb2
    · refine ⟨by simp [serializeBlock], ?_⟩
      exact serializeBlock_lines_ne_empty (hwf c (List.mem_cons_self c rest)).2.2.2
    · exact ih (fun x hx => hwf x (List.mem_cons_of_mem c hx)) (i + 1) b hb2

/-- Claim C6: the parse-serialize-parse round trip.  For every line
sequence the codec accepts, serializing the parsed track and parsing the
result yields the same track again, and in particular a track with
identical ordered (start, end, text) triples. -/
theorem c6_round_trip :
    ∀ (lines : List String) (t : List Cue),
      parseSRT lines = some t →
      parseSRT (serializeSRT t) = some t ∧
      ∃ t2, parseSRT (serializeSRT t) = some t2 ∧
        t2.map (fun c => (c.start, c.stop, c.text))
          = t.map (fun c => (c.start, c.stop, c.text)) := by
  intro lines t h
  have hwf : ∀ c ∈ t, CueWF c := parseBlocks_wf h
  have hmain : parseSRT (serializeSRT t) = some t := by
    rw [parseSRT, serializeSRT,
      splitBlocks_joinBlocks _ (serializeBlocksFrom_blocks_ok hwf 0),
      serializeBlocksFrom_parse hwf 0]
  exact ⟨hmain, t, hmain, rfl⟩

/-- Witness for claim C6 on a concrete two-cue file. -/
theorem c6_round_trip_witness :
    parseSRT (serializeSRT [⟨1000, 2500, ["Hello"]⟩, ⟨3000, 4000, ["World", "again"]⟩])
        = some [⟨1000, 2500, ["Hello"]⟩, ⟨3000, 4000, ["World", "again"]⟩] ∧
      ∃ t2, parseSRT (serializeSRT [⟨1000, 2500, ["Hello"]⟩, ⟨3000, 4000, ["World", "again"]⟩])
          = some t2 ∧
        t2.map (fun c => (c.start, c.stop, c.text))
          = [⟨1000, 2500, ["Hello"]⟩,
             (⟨3000, 4000, ["World", "again"]⟩ : Cue)].map (fun c => (c.start, c.stop, c.text)) :=
  c6_round_trip
    ["1", "00:00:01,000 --> 00:00:02,500", "Hello", "",
     "2", "00:00:03,000 --> 00:00:04,000", "World", "again"]
    [⟨1000, 2500, ["Hello"]⟩, ⟨3000, 4000, ["World", "again"]⟩]
    (by decide)

end PlexDualSub
